import Mathlib

/-! # url-shortener: alias validation, save and delete workflows, SQLite storage

A shallow embedding of

* `internal/lib/helpers/alias_validator.go` (`IsValidAlias`),
* `internal/http-server/handlers/url/save/save.go` (`save.New`),
* `internal/http-server/handlers/url/delete/delete.go` (`delete.New`),
* `internal/storage/sqlite/sqlite.go` (`Storage` and its methods),

followed by theorems about them.

Go strings are modelled by Lean `String`s (sequences of Unicode code points, which is
what Go's `regexp` iterates over; a byte that is not valid UTF-8 is read by `regexp`
as U+FFFD, which is outside every class used here).

What lies outside the four files is a parameter of the model: the JSON decoder gives the
`Body`, the struct validator is the function `validate`, the random generator is the
function `rnd`, and the database driver is the list `Storage.faults`.  Logging is not
modelled.
-/

set_option autoImplicit false

namespace UrlShortener

/-! ## A small regular-expression matcher (the fragment `regexp.MustCompile` is used on) -/

/-- Syntax of the regular expressions needed for the pattern `^[a-zA-Z0-9_]+$`.
Without the `m` flag, `^` is "beginning of text" and `$` is "end of text". -/
inductive Regexp where
  | beginText : Regexp
  | endText : Regexp
  | charClass (ranges : List (Char × Char)) : Regexp
  | plus (sub : Regexp) : Regexp
  | concat (left right : Regexp) : Regexp

/-- A position in the text being matched: how many characters lie before it and the
characters that are still ahead. -/
structure Cursor where
  consumed : Nat
  rest : List Char
deriving DecidableEq, Repr

/-- Membership of a rune in a character class given as inclusive ranges. -/
def inRanges (ranges : List (Char × Char)) (c : Char) : Bool :=
  ranges.any (fun r => decide (r.1.val ≤ c.val) && decide (c.val ≤ r.2.val))

/-- One or more repetitions: all cursors reachable by applying `step` between one and
`fuel` times, starting from the cursors in `cur`. -/
def plusEnds (step : Cursor → List Cursor) : Nat → List Cursor → List Cursor
  | 0, _ => []
  | fuel + 1, cur =>
    let next := cur.flatMap step
    next ++ plusEnds step fuel next

/-- All cursors at which a match of the expression that starts at the given cursor can
end.  A repetition is unrolled `rest.length + 1` times, which is exhaustive whenever the
repeated expression consumes a character (as a character class does). -/
def Regexp.ends : Regexp → Cursor → List Cursor
  | .beginText, p => if p.consumed = 0 then [p] else []
  | .endText, p => if p.rest = [] then [p] else []
  | .charClass ranges, p =>
    match p.rest with
    | [] => []
    | c :: cs => if inRanges ranges c then [⟨p.consumed + 1, cs⟩] else []
  | .plus sub, p => plusEnds (fun q => sub.ends q) (p.rest.length + 1) [p]
  | .concat left right, p => (left.ends p).flatMap (fun q => right.ends q)

/-- Unanchored search: is there a match starting at this cursor or at a later one? -/
def Regexp.searchFrom (re : Regexp) : Nat → List Char → Bool
  | k, [] => !(re.ends ⟨k, []⟩).isEmpty
  | k, c :: cs => !(re.ends ⟨k, c :: cs⟩).isEmpty || re.searchFrom (k + 1) cs

/-- The method `(*Regexp).MatchString`: reports whether the string contains any match of
the expression. -/
def Regexp.MatchString (re : Regexp) (s : String) : Bool :=
  re.searchFrom 0 s.toList

/-- The compiled pattern `^[a-zA-Z0-9_]+$`. -/
def allowedChars : Regexp :=
  .concat .beginText
    (.concat (.plus (.charClass [('a', 'z'), ('A', 'Z'), ('0', '9'), ('_', '_')])) .endText)

/-- The function `IsValidAlias` of `alias_validator.go`. -/
def IsValidAlias (aliasStr : String) : Bool :=
  allowedChars.MatchString aliasStr

/-- The alphabet `[A-Za-z0-9_]` as the specification words it. -/
def InAliasAlphabet (c : Char) : Prop :=
  ('A' ≤ c ∧ c ≤ 'Z') ∨ ('a' ≤ c ∧ c ≤ 'z') ∨ ('0' ≤ c ∧ c ≤ '9') ∨ c = '_'

instance (c : Char) : Decidable (InAliasAlphabet c) := by
  unfold InAliasAlphabet; exact inferInstance

/-! ## Errors -/

/-- Go `error` values that occur in the program.  `ErrURLNotFound` and `ErrURLExists` are
the sentinels of package `storage`; `other` is any unrelated error (an error of
`database/sql` or of the SQLite driver, or `errors.New`); `wrap` is the result of
`fmt.Errorf` with a `%w` verb. -/
inductive Error where
  | ErrURLNotFound : Error
  | ErrURLExists : Error
  | other (msg : String) : Error
  | wrap (text : String) (inner : Error) : Error
deriving DecidableEq, Repr

/-- The function `errors.Is`: the target is the error itself or is reached by unwrapping. -/
def errorsIs : Error → Error → Bool
  | .wrap text inner, target =>
    if Error.wrap text inner = target then true else errorsIs inner target
  | err, target => decide (err = target)

deriving instance DecidableEq for Except

/-! ## The response envelope (package `response`) -/

/-- Modelled from the spec: the status of the response envelope of package
`internal/lib/api/response`, which is not among the sources (`status: Ok | Error`). -/
inductive Status where
  | Ok : Status
  | Error : Status
deriving DecidableEq, Repr

/-- Modelled from the spec: the type `response.Response`, the uniform envelope with a
status and an error message; the message is empty when there is none. -/
structure Response where
  Status : Status
  Error : String
deriving DecidableEq, Repr

namespace response

/-- Modelled from the spec: the constructor `response.Ok` of the missing package
`response`: status `Ok` and no error message. -/
def Ok : Response := { Status := .Ok, Error := "" }

/-- Modelled from the spec: the constructor `response.Error` of the missing package
`response`: status `Error` with the given message. -/
def Error (msg : String) : Response := { Status := .Error, Error := msg }

/-- Modelled from the spec: the constructor `response.ValidationError` of the missing
package `response`: status `Error` with the field-level detail of the failed validation. -/
def ValidationError (fieldErrors : List String) : Response :=
  { Status := .Error, Error := ", ".intercalate fieldErrors }

end response

/-! ## SQLite storage (`internal/storage/sqlite/sqlite.go`) -/

/-- A row of the table `url(id INTEGER PRIMARY KEY, alias TEXT NOT NULL UNIQUE,
url TEXT NOT NULL)`. -/
structure Row where
  id : Int
  alias_ : String
  url : String
deriving DecidableEq, Repr

/-- A failure reported by `database/sql` or the driver inside one method of `Storage`:
either `db.Prepare` fails or running the prepared statement fails for a reason other than
a constraint.  A failed statement changes no row. -/
inductive Fault where
  | prepare (msg : String) : Fault
  | execute (msg : String) : Fault
deriving DecidableEq, Repr

/-- The database behind `Storage`: the rows of the table `url` in rowid order, and what
the driver will report in the coming method calls (`none`, or running out of entries,
means the driver works). -/
structure Storage where
  rows : List Row
  faults : List (Option Fault)
deriving DecidableEq, Repr

namespace Storage

/-- What the driver reports for the method call that starts now, and the database with
that entry used up. -/
def nextFault (s : Storage) : Option Fault × Storage :=
  match s.faults with
  | [] => (none, s)
  | f :: fs => (f, { s with faults := fs })

/-- The rowid SQLite gives to a row inserted without an explicit `id`: one more than the
largest rowid in the table, 1 for an empty table. -/
def nextRowid (rows : List Row) : Int :=
  rows.foldl (fun m r => max m r.id) 0 + 1

/-- The method `Storage.AliasExists`: `SELECT COUNT(*) FROM url WHERE alias = ?`. -/
def AliasExists (s : Storage) (alias_ : String) : Except Error Bool × Storage :=
  match s.nextFault with
  | (some (.prepare msg), s1) =>
    (.error (.wrap "storage.sqlite.AliasExists: prepare statement " (.other msg)), s1)
  | (some (.execute msg), s1) =>
    (.error (.wrap "storage.sqlite.AliasExists: execute statement: " (.other msg)), s1)
  | (none, s1) =>
    let count := (s1.rows.filter (fun r => r.alias_ = alias_)).length
    (.ok (decide (count > 0)), s1)

/-- The method `Storage.URLExists`: `SELECT COUNT(*) FROM url WHERE url = ?`. -/
def URLExists (s : Storage) (urlToCheck : String) : Except Error Bool × Storage :=
  match s.nextFault with
  | (some (.prepare msg), s1) =>
    (.error (.wrap "storage.sqlite.URLExists: prepare statement " (.other msg)), s1)
  | (some (.execute msg), s1) =>
    (.error (.wrap "storage.sqlite.URLExists: execute statement: " (.other msg)), s1)
  | (none, s1) =>
    let count := (s1.rows.filter (fun r => r.url = urlToCheck)).length
    (.ok (decide (count > 0)), s1)

/-- The method `Storage.GetAliasByURL`: `SELECT alias FROM url WHERE url = ?`, of which
`QueryRow` keeps the first row; no row is `sql.ErrNoRows`, returned as `ErrURLNotFound`. -/
def GetAliasByURL (s : Storage) (urlToFind : String) : Except Error String × Storage :=
  match s.nextFault with
  | (some (.prepare msg), s1) =>
    (.error (.wrap "storage.sqlite.GetAliasByURL: prepare statement " (.other msg)), s1)
  | (some (.execute msg), s1) =>
    (.error (.wrap "storage.sqlite.GetAliasByURL: execute statement: " (.other msg)), s1)
  | (none, s1) =>
    match s1.rows.find? (fun r => r.url = urlToFind) with
    | none => (.error .ErrURLNotFound, s1)
    | some r => (.ok r.alias_, s1)

/-- The method `Storage.SaveURL`: `INSERT INTO url(url, alias) VALUES(?, ?)`.  The insert
violates the `UNIQUE` constraint exactly when a row already has the alias; the error is
then `ErrURLExists`, wrapped.  The branch for a failing `res.LastInsertId()` has no
counterpart here: the result type of the imported driver `go-sqlite3` returns the stored
rowid with a `nil` error, always. -/
def SaveURL (s : Storage) (urlToSave : String) (alias_ : String) : Except Error Int × Storage :=
  match s.nextFault with
  | (some (.prepare msg), s1) => (.error (.wrap "storage.sqlite.SaveURL: " (.other msg)), s1)
  | (some (.execute msg), s1) => (.error (.wrap "storage.sqlite.SaveURL: " (.other msg)), s1)
  | (none, s1) =>
    if s1.rows.any (fun r => r.alias_ = alias_) then
      (.error (.wrap "storage.sqlite.SaveURL: " .ErrURLExists), s1)
    else
      let id := nextRowid s1.rows
      (.ok id, { s1 with rows := s1.rows ++ [{ id := id, alias_ := alias_, url := urlToSave }] })

/-- The method `Storage.GetURL`: `SELECT url FROM url WHERE alias = ?`. -/
def GetURL (s : Storage) (alias_ : String) : Except Error String × Storage :=
  match s.nextFault with
  | (some (.prepare msg), s1) =>
    (.error (.wrap "storage.sqlite.GetURL: prepare statement: " (.other msg)), s1)
  | (some (.execute msg), s1) =>
    (.error (.wrap "storage.sqlite.GetURL: execute statement: " (.other msg)), s1)
  | (none, s1) =>
    match s1.rows.find? (fun r => r.alias_ = alias_) with
    | none => (.error .ErrURLNotFound, s1)
    | some r => (.ok r.url, s1)

/-- The method `Storage.DeleteURL`: `DELETE FROM url WHERE alias = ?`.  The number of
deleted rows is not looked at; the result is `nil` (here `none`) whenever the statement
ran. -/
def DeleteURL (s : Storage) (alias_ : String) : Option Error × Storage :=
  match s.nextFault with
  | (some (.prepare msg), s1) =>
    (some (.wrap "storage.sqlite.DeleteURL: prepare statement: " (.other msg)), s1)
  | (some (.execute msg), s1) =>
    (some (.wrap "storage.sqlite.DeleteURL: execute statement: " (.other msg)), s1)
  | (none, s1) => (none, { s1 with rows := s1.rows.filter (fun r => ¬ r.alias_ = alias_) })

/-- A database holding the given rows whose driver works. -/
def healthy (rows : List Row) : Storage := { rows := rows, faults := [] }

end Storage

/-! ## The save handler (`internal/http-server/handlers/url/save/save.go`) -/

namespace save

/-- The type `save.Request`. -/
structure Request where
  URL : String
  Alias : String
deriving DecidableEq, Repr

/-- The type `save.Response`: the envelope and the alias. -/
structure Response where
  toResponse : UrlShortener.Response
  Alias : String
deriving DecidableEq, Repr

/-- The outcome of `render.DecodeJSON(r.Body, &req)`: `io.EOF` for an empty body, another
error for a malformed one, or the decoded request. -/
inductive Body where
  | eof : Body
  | malformed : Body
  | decoded (req : Request) : Body
deriving DecidableEq, Repr

/-- The constant `aliasLength`. -/
def aliasLength : Nat := 4

/-- The constant `maxAttempts`. -/
def maxAttempts : Nat := 64

/-- The interface `URLSaver`, over a store whose state has type `σ`; each method returns
its result and the state it leaves. -/
structure URLSaver (σ : Type) where
  SaveURL : σ → String → String → Except Error Int × σ
  AliasExists : σ → String → Except Error Bool × σ
  URLExists : σ → String → Except Error Bool × σ
  GetAliasByURL : σ → String → Except Error String × σ

/-- An error response of the handler, with no alias. -/
def responseError (msg : String) : Response :=
  { toResponse := response.Error msg, Alias := "" }

/-- The function `responseOK`. -/
def responseOK (alias_ : String) : Response :=
  { toResponse := response.Ok, Alias := alias_ }

/-- How the generation loop is left: by the `return` after a failed `AliasExists`, or by
reaching the statement after the loop with the current `alias` and `exists`. -/
inductive LoopExit (σ : Type) where
  | failed (s : σ) : LoopExit σ
  | finished (alias_ : String) (found : Bool) (s : σ) : LoopExit σ

/-- The state of the store when the loop is left. -/
def LoopExit.state {σ : Type} : LoopExit σ → σ
  | .failed s => s
  | .finished _ _ s => s

/-- The same exit with the state of the store transformed. -/
def LoopExit.map {σ τ : Type} (g : σ → τ) : LoopExit σ → LoopExit τ
  | .failed s => .failed (g s)
  | .finished alias_ found s => .finished alias_ found (g s)

/-- The loop `for attempt := 1; attempt <= maxAttempts; attempt++`, with `remaining`
iterations still to run; `rnd k size` is what the call number `k` (from 0) of
`random.NewRandomString(size)` returns. -/
def generateLoop {σ : Type} (urlSaver : URLSaver σ) (rnd : Nat → Nat → String) :
    (remaining : Nat) → (attempt : Nat) → (alias_ : String) → (found : Bool) → σ → LoopExit σ
  | 0, _, alias_, found, s => .finished alias_ found s
  | remaining + 1, attempt, _, _, s =>
    let alias_ := rnd (attempt - 1) aliasLength
    match urlSaver.AliasExists s alias_ with
    | (.error _, s1) => .failed s1
    | (.ok found, s1) =>
      if !found then .finished alias_ found s1
      else generateLoop urlSaver rnd remaining (attempt + 1) alias_ found s1

/-- The end of the handler, from `if !utils.IsValidAlias(alias)` on. -/
def persist {σ : Type} (urlSaver : URLSaver σ) (url alias_ : String) (s : σ) : Response × σ :=
  if !IsValidAlias alias_ then (responseError "url alias not valid", s)
  else
    match urlSaver.SaveURL s url alias_ with
    | (.error err, s1) =>
      if errorsIs err .ErrURLExists then (responseError "url already exists", s1)
      else (responseError "failed to add url", s1)
    | (.ok _, s1) => (responseOK alias_, s1)

/-- The handler returned by `save.New`, run on one request: the response written and the
state the store is left in.  `validate` is `validator.New().Struct` (tags `required,url`
on `URL`), giving the field errors when validation fails. -/
def New {σ : Type} (validate : Request → Option (List String)) (urlSaver : URLSaver σ)
    (rnd : Nat → Nat → String) (body : Body) (s : σ) : Response × σ :=
  match body with
  | .eof => (responseError "empty request", s)
  | .malformed => (responseError "failed to decode request", s)
  | .decoded req =>
    match validate req with
    | some fieldErrors =>
      ({ toResponse := response.ValidationError fieldErrors, Alias := "" }, s)
    | none =>
      if req.Alias = "" then
        match urlSaver.URLExists s req.URL with
        | (.error _, s1) => (responseError "failed to check that URL exists in DB", s1)
        | (.ok true, s1) =>
          match urlSaver.GetAliasByURL s1 req.URL with
          | (.error _, s2) => (responseError "failed to get alias connected to URL", s2)
          | (.ok alias_, s2) => (responseOK alias_, s2)
        | (.ok false, s1) =>
          match generateLoop urlSaver rnd maxAttempts 1 "" true s1 with
          | .failed s2 => (responseError "failed to generate url", s2)
          | .finished alias_ found s2 =>
            if found then
              (responseError
                "The number of attempts to create an alias has been exceeded. Try again after a while",
                s2)
            else persist urlSaver req.URL alias_ s2
      else persist urlSaver req.URL req.Alias s

/-- A call of a method of `URLSaver` together with what it returned. -/
inductive Call where
  | SaveURL (urlToSave alias_ : String) (result : Except Error Int) : Call
  | AliasExists (alias_ : String) (result : Except Error Bool) : Call
  | URLExists (urlToCheck : String) (result : Except Error Bool) : Call
  | GetAliasByURL (urlToFind : String) (result : Except Error String) : Call
deriving DecidableEq, Repr

/-- The same store, recording every call made to it, oldest first. -/
def recording {σ : Type} (urlSaver : URLSaver σ) : URLSaver (σ × List Call) where
  SaveURL := fun st u a =>
    let r := urlSaver.SaveURL st.1 u a
    (r.1, (r.2, st.2 ++ [.SaveURL u a r.1]))
  AliasExists := fun st a =>
    let r := urlSaver.AliasExists st.1 a
    (r.1, (r.2, st.2 ++ [.AliasExists a r.1]))
  URLExists := fun st u =>
    let r := urlSaver.URLExists st.1 u
    (r.1, (r.2, st.2 ++ [.URLExists u r.1]))
  GetAliasByURL := fun st u =>
    let r := urlSaver.GetAliasByURL st.1 u
    (r.1, (r.2, st.2 ++ [.GetAliasByURL u r.1]))

/-- Is the call a `SaveURL`? -/
def Call.isSaveURL : Call → Bool
  | .SaveURL _ _ _ => true
  | _ => false

/-- Is the call a `SaveURL` that returned no error (an insert that happened)? -/
def Call.isInsert : Call → Bool
  | .SaveURL _ _ (.ok _) => true
  | _ => false

/-- Is the call an `AliasExists`? -/
def Call.isAliasExists : Call → Bool
  | .AliasExists _ _ => true
  | _ => false

/-- Is the call anything but an `AliasExists` that answered something else than "the
alias exists"? -/
def Call.reportsExisting : Call → Bool
  | .AliasExists _ (.ok true) => true
  | .AliasExists _ _ => false
  | _ => true

/-- The SQLite `Storage` as a `URLSaver`, as `main` passes it to `save.New`. -/
def sqlite : URLSaver Storage where
  SaveURL := Storage.SaveURL
  AliasExists := Storage.AliasExists
  URLExists := Storage.URLExists
  GetAliasByURL := Storage.GetAliasByURL

/-- The handler run against a recording store that starts with an empty record: the
response, the final state of the store and the calls made. -/
def run {σ : Type} (validate : Request → Option (List String)) (urlSaver : URLSaver σ)
    (rnd : Nat → Nat → String) (body : Body) (s : σ) : Response × σ × List Call :=
  New validate (recording urlSaver) rnd body (s, [])

end save

/-! ## The delete handler (`internal/http-server/handlers/url/delete/delete.go`) -/

namespace delete

/-- The interface `URLDeleter`; `DeleteURL` returns `none` for a `nil` error. -/
structure URLDeleter (σ : Type) where
  DeleteURL : σ → String → Option Error × σ

/-- The handler returned by `delete.New`, run on the URL parameter `alias`. -/
def New {σ : Type} (urlDeleter : URLDeleter σ) (alias_ : String) (s : σ) : Response × σ :=
  if alias_ = "" then (response.Error "invalid alias", s)
  else if !IsValidAlias alias_ then (response.Error "url alias not valid", s)
  else
    match urlDeleter.DeleteURL s alias_ with
    | (some err, s1) =>
      if errorsIs err .ErrURLNotFound then (response.Error "url alias not found", s1)
      else (response.Error "failed to delete url", s1)
    | (none, s1) => (response.Ok, s1)

/-- The same deleter, recording the alias and the result of every `DeleteURL` call. -/
def recording {σ : Type} (urlDeleter : URLDeleter σ) :
    URLDeleter (σ × List (String × Option Error)) where
  DeleteURL := fun st a =>
    let r := urlDeleter.DeleteURL st.1 a
    (r.1, (r.2, st.2 ++ [(a, r.1)]))

/-- The SQLite `Storage` as a `URLDeleter`, as `main` passes it to `delete.New`. -/
def sqlite : URLDeleter Storage where
  DeleteURL := Storage.DeleteURL

end delete

/-! ## The generation loop seen from the store, and the generator's contract -/

namespace save

/-- The state of the store after `queries` iterations of the generation loop that all went
on to the next one, when the loop was entered in state `s` and its first candidate is the
one of call number `first` of the generator. -/
def stateAfter {σ : Type} (urlSaver : URLSaver σ) (rnd : Nat → Nat → String) :
    (queries : Nat) → (first : Nat) → σ → σ
  | 0, _, s => s
  | queries + 1, first, s =>
    stateAfter urlSaver rnd queries (first + 1) (urlSaver.AliasExists s (rnd first aliasLength)).2

/-- What `AliasExists` answers for candidate number `i` (from 0) of a loop entered in state
`s`, when the earlier iterations all went on. -/
def answerAt {σ : Type} (urlSaver : URLSaver σ) (rnd : Nat → Nat → String) (s : σ) (i : Nat) :
    Except Error Bool :=
  (urlSaver.AliasExists (stateAfter urlSaver rnd i 0 s) (rnd i aliasLength)).1

/-- Modelled from the spec: the contract of `random.NewRandomString` of the package
`internal/lib/random`, which is not among the sources: a string of exactly `size`
characters drawn from letters, digits and the underscore. -/
def IsGenerated (size : Nat) (s : String) : Prop :=
  s.toList.length = size ∧ ∀ c ∈ s.toList, InAliasAlphabet c

end save

/-! ## Sequences of operations on the storage -/

/-- An operation that `main` can run against the storage: a direct call of `SaveURL` or
`DeleteURL`, or one request served by the save handler or by the delete handler. -/
inductive Op where
  | SaveURL (urlToSave alias_ : String) : Op
  | DeleteURL (alias_ : String) : Op
  | save (validate : save.Request → Option (List String)) (rnd : Nat → Nat → String)
      (body : save.Body) : Op
  | delete (alias_ : String) : Op

/-- The storage after one operation. -/
def Op.apply : Op → Storage → Storage
  | .SaveURL urlToSave alias_, st => (st.SaveURL urlToSave alias_).2
  | .DeleteURL alias_, st => (st.DeleteURL alias_).2
  | .save validate rnd body, st => (save.New validate save.sqlite rnd body st).2
  | .delete alias_, st => (delete.New delete.sqlite alias_ st).2

/-- The storage after a sequence of operations, the first of the list first. -/
def Storage.after (ops : List Op) (st : Storage) : Storage :=
  ops.foldl (fun s op => op.apply s) st

/-- Alias uniqueness: no two rows of the table have the same alias. -/
def Storage.UniqueAliases (st : Storage) : Prop :=
  (st.rows.map (fun r => r.alias_)).Nodup

/-! ## Theorems: alias validation -/

theorem plusEnds_nil (step : Cursor → List Cursor) (n : Nat) : plusEnds step n [] = [] := by
  induction n with
  | zero => rfl
  | succ n ih => simp [plusEnds, ih]

theorem plusEnds_charClass_cons (rs : List (Char × Char)) (n k : Nat) (c : Char)
    (cs : List Char) :
    plusEnds (fun q => (Regexp.charClass rs).ends q) (n + 1) [⟨k, c :: cs⟩] =
      if inRanges rs c then
        ⟨k + 1, cs⟩ :: plusEnds (fun q => (Regexp.charClass rs).ends q) n [⟨k + 1, cs⟩]
      else [] := by
  by_cases h : inRanges rs c = true
  · simp [plusEnds, Regexp.ends, h]
  · simp [plusEnds, Regexp.ends, h, plusEnds_nil]

theorem plusEnds_charClass_nil (rs : List (Char × Char)) (n k : Nat) :
    plusEnds (fun q => (Regexp.charClass rs).ends q) n [⟨k, []⟩] = [] := by
  cases n with
  | zero => rfl
  | succ n => simp [plusEnds, Regexp.ends, plusEnds_nil]

/-- A repetition of a character class reaches the end of the text exactly when the text
ahead is non-empty, short enough for the unrolling, and entirely inside the class. -/
theorem plusEnds_charClass_reaches_end (rs : List (Char × Char)) :
    ∀ (n k : Nat) (l : List Char),
      (∃ q ∈ plusEnds (fun q => (Regexp.charClass rs).ends q) n [⟨k, l⟩], q.rest = []) ↔
        (l ≠ [] ∧ l.length ≤ n ∧ ∀ c ∈ l, inRanges rs c = true) := by
  intro n
  induction n with
  | zero =>
    intro k l
    cases l <;> simp [plusEnds]
  | succ n ih =>
    intro k l
    cases l with
    | nil => simp [plusEnds_charClass_nil]
    | cons c cs =>
      rw [plusEnds_charClass_cons]
      by_cases h : inRanges rs c = true
      · simp only [h, if_true, List.mem_cons, exists_eq_or_imp, ih (k + 1) cs]
        cases cs with
        | nil => simp [h]
        | cons d ds => simp [h]
      · simp [h]

/-- The ranges of the compiled class are the alphabet `[A-Za-z0-9_]`. -/
theorem inRanges_alias_iff (c : Char) :
    inRanges [('a', 'z'), ('A', 'Z'), ('0', '9'), ('_', '_')] c = true ↔ InAliasAlphabet c := by
  have hu : c = '_' ↔ ('_'.val ≤ c.val ∧ c.val ≤ '_'.val) := by
    constructor
    · rintro rfl; exact ⟨UInt32.le_refl _, UInt32.le_refl _⟩
    · rintro ⟨h1, h2⟩; exact Char.ext (UInt32.le_antisymm h2 h1)
  simp only [inRanges, InAliasAlphabet, List.any_cons, List.any_nil, Bool.or_false,
    Bool.or_eq_true, Bool.and_eq_true, decide_eq_true_eq, hu, Char.le_def]
  tauto

theorem ends_concat (a b : Regexp) (p : Cursor) :
    (Regexp.concat a b).ends p = (a.ends p).flatMap (fun q => b.ends q) := rfl

theorem ends_plus (a : Regexp) (p : Cursor) :
    (Regexp.plus a).ends p = plusEnds (fun q => a.ends q) (p.rest.length + 1) [p] := rfl

theorem ends_beginText (p : Cursor) :
    Regexp.beginText.ends p = if p.consumed = 0 then [p] else [] := rfl

theorem ends_endText (p : Cursor) :
    Regexp.endText.ends p = if p.rest = [] then [p] else [] := rfl

theorem flatMap_endText_ne_nil (qs : List Cursor) :
    qs.flatMap (fun q => Regexp.endText.ends q) ≠ [] ↔ ∃ q ∈ qs, q.rest = [] := by
  induction qs with
  | nil => simp
  | cons q qs ih =>
    by_cases h : q.rest = []
    · simp [ends_endText, h]
    · simp only [List.flatMap_cons, ends_endText, h, if_false, List.nil_append,
        List.mem_cons, exists_eq_or_imp, false_or]
      exact ih

theorem ends_allowedChars_nonempty (k : Nat) (l : List Char) :
    (allowedChars.ends ⟨k, l⟩).isEmpty = false ↔
      (k = 0 ∧ l ≠ [] ∧ ∀ c ∈ l, InAliasAlphabet c) := by
  have key := plusEnds_charClass_reaches_end
    [('a', 'z'), ('A', 'Z'), ('0', '9'), ('_', '_')] (l.length + 1) k l
  simp only [inRanges_alias_iff] at key
  rw [List.isEmpty_eq_false, allowedChars, ends_concat, ends_beginText]
  by_cases hk : k = 0
  · subst hk
    simp only [if_true, List.flatMap_cons, List.flatMap_nil, List.append_nil, true_and,
      ends_concat, ends_plus, flatMap_endText_ne_nil, key]
    constructor
    · rintro ⟨h1, _, h3⟩; exact ⟨h1, h3⟩
    · rintro ⟨h1, h3⟩; exact ⟨h1, Nat.le_succ _, h3⟩
  · simp [hk]

theorem searchFrom_allowedChars_succ (k : Nat) (l : List Char) :
    allowedChars.searchFrom (k + 1) l = false := by
  induction l generalizing k with
  | nil =>
    have h := ends_allowedChars_nonempty (k + 1) []
    simp only [Regexp.searchFrom]
    cases hE : (allowedChars.ends ⟨k + 1, []⟩).isEmpty
    · exact absurd (h.mp hE).1 (Nat.succ_ne_zero k)
    · rfl
  | cons c cs ih =>
    have h := ends_allowedChars_nonempty (k + 1) (c :: cs)
    simp only [Regexp.searchFrom, ih, Bool.or_false]
    cases hE : (allowedChars.ends ⟨k + 1, c :: cs⟩).isEmpty
    · exact absurd (h.mp hE).1 (Nat.succ_ne_zero k)
    · rfl

theorem searchFrom_allowedChars_zero (l : List Char) :
    allowedChars.searchFrom 0 l = true ↔ (l ≠ [] ∧ ∀ c ∈ l, InAliasAlphabet c) := by
  have h := ends_allowedChars_nonempty 0 l
  simp only [true_and] at h
  have hs : allowedChars.searchFrom 0 l = !(allowedChars.ends ⟨0, l⟩).isEmpty := by
    cases l with
    | nil => rfl
    | cons c cs => simp only [Regexp.searchFrom, searchFrom_allowedChars_succ, Bool.or_false]
  rw [hs, Bool.not_eq_true', h]

/-- Characterisation of `IsValidAlias` on the characters of the string. -/
theorem IsValidAlias_eq_true_iff (s : String) :
    IsValidAlias s = true ↔ (s.toList ≠ [] ∧ ∀ c ∈ s.toList, InAliasAlphabet c) := by
  unfold IsValidAlias Regexp.MatchString
  exact searchFrom_allowedChars_zero s.toList

/-- Claim C1. For every string `s`, `IsValidAlias s` is true if and only if `s` is non-empty
and every character of `s` is in `[A-Za-z0-9_]`.  In particular the empty string is
rejected, `"abc_123"` is accepted, `"ab c"` and `"héllo"` are rejected, and no string
followed by a newline is accepted (so a valid alias followed by a newline is rejected). -/
theorem C1_IsValidAlias_spec :
    (∀ s : String, IsValidAlias s = true ↔ (s ≠ "" ∧ ∀ c ∈ s.toList, InAliasAlphabet c)) ∧
    IsValidAlias "" = false ∧
    IsValidAlias "abc_123" = true ∧
    IsValidAlias "ab c" = false ∧
    IsValidAlias "héllo" = false ∧
    (∀ s : String, IsValidAlias (s ++ "\n") = false) := by
  have hne : ∀ s : String, s ≠ "" ↔ s.toList ≠ [] := by
    intro s
    constructor
    · intro h hl; exact h (String.ext hl)
    · rintro h rfl; exact h rfl
  refine ⟨fun s => by rw [IsValidAlias_eq_true_iff, hne], by decide, by decide, by decide,
    by decide, ?_⟩
  intro s
  cases hv : IsValidAlias (s ++ "\n")
  · rfl
  · have h := ((IsValidAlias_eq_true_iff _).mp hv).2 '\n' (by simp)
    exact absurd h (by decide)

/-! ## Theorems: the generation loop -/

namespace save

/-- The loop only adds `AliasExists` calls to the record. -/
theorem generateLoop_recording_log {σ : Type} (impl : URLSaver σ) (rnd : Nat → Nat → String) :
    ∀ (n att : Nat) (a : String) (f : Bool) (s : σ) (log : List Call),
      ∃ ext, (generateLoop (recording impl) rnd n att a f (s, log)).state.2 = log ++ ext ∧
        ∀ c ∈ ext, c.isAliasExists = true := by
  intro n
  induction n with
  | zero => intro att a f s log; exact ⟨[], by simp [generateLoop, LoopExit.state], by simp⟩
  | succ n ih =>
    intro att a f s log
    rcases hq : impl.AliasExists s (rnd (att - 1) aliasLength) with ⟨r, s1⟩
    cases r with
    | error e =>
      refine ⟨[.AliasExists (rnd (att - 1) aliasLength) (.error e)], ?_, by simp [Call.isAliasExists]⟩
      simp [generateLoop, recording, hq, LoopExit.state]
    | ok found =>
      cases found with
      | false =>
        refine ⟨[.AliasExists (rnd (att - 1) aliasLength) (.ok false)], ?_,
          by simp [Call.isAliasExists]⟩
        simp [generateLoop, recording, hq, LoopExit.state]
      | true =>
        obtain ⟨ext, h1, h2⟩ := ih (att + 1) (rnd (att - 1) aliasLength) true s1
          (log ++ [.AliasExists (rnd (att - 1) aliasLength) (.ok true)])
        refine ⟨.AliasExists (rnd (att - 1) aliasLength) (.ok true) :: ext, ?_, ?_⟩
        · simp only [generateLoop, recording, hq, Bool.not_true]
          simpa using h1
        · intro c hc
          rcases List.mem_cons.mp hc with rfl | hc
          · rfl
          · exact h2 c hc

/-- What the end of the handler does to the record: nothing on an invalid alias, and
otherwise one `SaveURL` call with the result the store gave. -/
theorem persist_recording {σ : Type} (impl : URLSaver σ) (u a : String) (s : σ)
    (log : List Call) :
    persist (recording impl) u a (s, log) =
      if IsValidAlias a = false then (responseError "url alias not valid", (s, log))
      else
        ((persist impl u a s).1, (impl.SaveURL s u a).2,
          log ++ [.SaveURL u a (impl.SaveURL s u a).1]) := by
  unfold persist
  cases hv : IsValidAlias a
  · simp
  · simp only [Bool.not_true, Bool.false_eq_true, if_false, recording]
    rcases hq : impl.SaveURL s u a with ⟨r, s1⟩
    cases r with
    | error e => by_cases he : errorsIs e .ErrURLExists = true <;> simp [he]
    | ok id => simp

/-- The handler's response on success is `responseOK`. -/
theorem persist_fst_cases {σ : Type} (impl : URLSaver σ) (u a : String) (s : σ) :
    ((persist impl u a s).1.toResponse.Status = .Error ∧
      (IsValidAlias a = true → ∃ e, (impl.SaveURL s u a).1 = .error e)) ∨
    ((persist impl u a s).1 = responseOK a ∧ IsValidAlias a = true ∧
      ∃ id, (impl.SaveURL s u a).1 = .ok id) := by
  unfold persist
  cases hv : IsValidAlias a
  · left; simp [responseError, response.Error]
  · simp only [Bool.not_true, Bool.false_eq_true, if_false]
    rcases hq : impl.SaveURL s u a with ⟨r, s1⟩
    cases r with
    | error e =>
      left
      by_cases he : errorsIs e .ErrURLExists = true <;> simp [he, responseError, response.Error]
    | ok id => right; simp

theorem Call.not_isInsert_of_isAliasExists {c : Call} (h : c.isAliasExists = true) :
    c.isInsert = false := by
  cases c <;> simp_all [Call.isAliasExists, Call.isInsert]

theorem Call.not_isSaveURL_of_isAliasExists {c : Call} (h : c.isAliasExists = true) :
    c.isSaveURL = false := by
  cases c <;> simp_all [Call.isAliasExists, Call.isSaveURL]

/-- The record of the end of the handler, started after calls `log` none of which is a
`SaveURL`. -/
theorem persist_recording_shape {σ : Type} (impl : URLSaver σ) (u a : String) (s : σ)
    (log : List Call) (hlog : ∀ c ∈ log, c.isSaveURL = false) :
    ((persist (recording impl) u a (s, log)).1.toResponse.Status = .Error ∧
      ∀ c ∈ (persist (recording impl) u a (s, log)).2.2, c.isInsert = false) ∨
    (∃ id, (persist (recording impl) u a (s, log)).1 = responseOK a ∧ IsValidAlias a = true ∧
      (persist (recording impl) u a (s, log)).2.2 = log ++ [.SaveURL u a (.ok id)]) := by
  have hins : ∀ c ∈ log, c.isInsert = false := by
    intro c hc
    have := hlog c hc
    cases c <;> simp_all [Call.isSaveURL, Call.isInsert]
  rw [persist_recording]
  cases hv : IsValidAlias a
  · left
    simpa [responseError, response.Error] using hins
  · simp only [Bool.true_eq_false, if_false]
    rcases persist_fst_cases impl u a s with ⟨h1, h2⟩ | ⟨h1, _, id, h3⟩
    · left
      refine ⟨h1, ?_⟩
      obtain ⟨e, he⟩ := h2 hv
      intro c hc
      rcases List.mem_append.mp hc with hc | hc
      · exact hins c hc
      · rw [he] at hc
        rw [List.mem_singleton.mp hc]
        rfl
    · right
      exact ⟨id, h1, trivial, by rw [h3]⟩

theorem recording_URLExists {σ : Type} (impl : URLSaver σ) (s : σ) (log : List Call)
    (u : String) :
    (recording impl).URLExists (s, log) u =
      ((impl.URLExists s u).1, (impl.URLExists s u).2,
        log ++ [.URLExists u (impl.URLExists s u).1]) := rfl

theorem recording_GetAliasByURL {σ : Type} (impl : URLSaver σ) (s : σ) (log : List Call)
    (u : String) :
    (recording impl).GetAliasByURL (s, log) u =
      ((impl.GetAliasByURL s u).1, (impl.GetAliasByURL s u).2,
        log ++ [.GetAliasByURL u (impl.GetAliasByURL s u).1]) := rfl

theorem recording_AliasExists {σ : Type} (impl : URLSaver σ) (s : σ) (log : List Call)
    (a : String) :
    (recording impl).AliasExists (s, log) a =
      ((impl.AliasExists s a).1, (impl.AliasExists s a).2,
        log ++ [.AliasExists a (impl.AliasExists s a).1]) := rfl

/-- The three ways a request can go: an error response with no insert recorded; success
after exactly one `SaveURL`, the last call, which inserted; or success on the path of an
already stored URL, with no `SaveURL` at all. -/
theorem New_recording_shape {σ : Type} (validate : Request → Option (List String))
    (impl : URLSaver σ) (rnd : Nat → Nat → String) (body : Body) (s : σ) :
    ((run validate impl rnd body s).1.toResponse.Status = .Error ∧
      ∀ c ∈ (run validate impl rnd body s).2.2, c.isInsert = false) ∨
    (∃ req, body = .decoded req ∧ validate req = none ∧
      ((∃ pre a id, (run validate impl rnd body s).1 = responseOK a ∧ IsValidAlias a = true ∧
          (run validate impl rnd body s).2.2 = pre ++ [.SaveURL req.URL a (.ok id)] ∧
          (∀ c ∈ pre, c.isSaveURL = false) ∧
          ¬ (req.Alias = "" ∧ (impl.URLExists s req.URL).1 = .ok true)) ∨
       (∃ a, (run validate impl rnd body s).1 = responseOK a ∧ req.Alias = "" ∧
          (impl.URLExists s req.URL).1 = .ok true ∧
          (run validate impl rnd body s).2.2 =
            [.URLExists req.URL (.ok true), .GetAliasByURL req.URL (.ok a)]))) := by
  unfold run
  cases body with
  | eof => left; simp [New, responseError, response.Error]
  | malformed => left; simp [New, responseError, response.Error]
  | decoded req =>
    cases hval : validate req with
    | some errs => left; simp [New, hval, response.ValidationError]
    | none =>
      by_cases hA : req.Alias = ""
      · rcases hq : impl.URLExists s req.URL with ⟨r, s1⟩
        cases r with
        | error e =>
          left
          simp [New, hval, hA, recording_URLExists, hq, responseError, response.Error,
            Call.isInsert]
        | ok found =>
          cases found with
          | true =>
            rcases hg : impl.GetAliasByURL s1 req.URL with ⟨r2, s2⟩
            cases r2 with
            | error e =>
              left
              simp [New, hval, hA, recording_URLExists, recording_GetAliasByURL, hq, hg,
                responseError, response.Error, Call.isInsert]
            | ok a =>
              right
              refine ⟨req, rfl, hval, Or.inr ⟨a, ?_, hA, by rw [hq], ?_⟩⟩
              · simp [New, hval, hA, recording_URLExists, recording_GetAliasByURL, hq, hg]
              · simp [New, hval, hA, recording_URLExists, recording_GetAliasByURL, hq, hg]
          | false =>
            obtain ⟨ext, h1, h2⟩ := generateLoop_recording_log impl rnd maxAttempts 1 "" true s1
              [.URLExists req.URL (.ok false)]
            have hlog : ∀ c ∈ [Call.URLExists req.URL (.ok false)] ++ ext,
                c.isSaveURL = false := by
              intro c hc
              rcases List.mem_append.mp hc with hc | hc
              · rw [List.mem_singleton.mp hc]; rfl
              · exact Call.not_isSaveURL_of_isAliasExists (h2 c hc)
            have hins : ∀ c ∈ [Call.URLExists req.URL (.ok false)] ++ ext,
                c.isInsert = false := by
              intro c hc
              rcases List.mem_append.mp hc with hc | hc
              · rw [List.mem_singleton.mp hc]; rfl
              · exact Call.not_isInsert_of_isAliasExists (h2 c hc)
            simp only [New, hval, hA, recording_URLExists, hq, if_true, List.nil_append]
            cases hl : generateLoop (recording impl) rnd maxAttempts 1 "" true
                (s1, [.URLExists req.URL (.ok false)]) with
            | failed st =>
              left
              rw [hl] at h1
              simp only [LoopExit.state] at h1 ⊢
              rw [h1]
              exact ⟨rfl, hins⟩
            | finished a f st =>
              rw [hl] at h1
              simp only [LoopExit.state] at h1 ⊢
              cases f with
              | true =>
                left
                simp only [if_true]
                rw [h1]
                exact ⟨rfl, hins⟩
              | false =>
                simp only [Bool.false_eq_true, if_false]
                obtain ⟨st1, st2⟩ := st
                simp only at h1
                subst h1
                rcases persist_recording_shape impl req.URL a st1 _ hlog with h | ⟨id, h3, h4, h5⟩
                · exact Or.inl h
                · right
                  refine ⟨req, rfl, hval, Or.inl ⟨_, a, id, h3, h4, h5, hlog, ?_⟩⟩
                  rintro ⟨_, h6⟩
                  rw [hq] at h6
                  simp at h6
      · rcases persist_recording_shape impl req.URL req.Alias s [] (by simp) with
          h | ⟨id, h3, h4, h5⟩
        · left
          simpa [New, hval, hA] using h
        · right
          refine ⟨req, rfl, hval, Or.inl ⟨[], req.Alias, id, ?_, h4, ?_, by simp, ?_⟩⟩
          · simpa [New, hval, hA] using h3
          · simpa [New, hval, hA] using h5
          · rintro ⟨h6, _⟩; exact hA h6

/-! ## Theorems: recording does not change what the handler does -/

theorem generateLoop_recording_map {σ : Type} (impl : URLSaver σ) (rnd : Nat → Nat → String) :
    ∀ (n att : Nat) (a : String) (f : Bool) (s : σ) (log : List Call),
      (generateLoop (recording impl) rnd n att a f (s, log)).map Prod.fst =
        generateLoop impl rnd n att a f s := by
  intro n
  induction n with
  | zero => intro att a f s log; rfl
  | succ n ih =>
    intro att a f s log
    rcases hq : impl.AliasExists s (rnd (att - 1) aliasLength) with ⟨r, s1⟩
    cases r with
    | error e => simp [generateLoop, recording_AliasExists, hq, LoopExit.map]
    | ok found =>
      cases found with
      | false => simp [generateLoop, recording_AliasExists, hq, LoopExit.map]
      | true =>
        simp only [generateLoop, recording_AliasExists, hq, Bool.not_true, Bool.false_eq_true,
          if_false]
        exact ih _ _ _ _ _

theorem persist_recording_fst {σ : Type} (impl : URLSaver σ) (u a : String) (s : σ)
    (log : List Call) :
    (persist (recording impl) u a (s, log)).1 = (persist impl u a s).1 ∧
    (persist (recording impl) u a (s, log)).2.1 = (persist impl u a s).2 := by
  rw [persist_recording]
  cases hv : IsValidAlias a
  · simp [persist, hv]
  · simp only [Bool.true_eq_false, if_false, true_and]
    unfold persist
    rcases hq : impl.SaveURL s u a with ⟨r, s1⟩
    cases r with
    | error e => by_cases he : errorsIs e .ErrURLExists = true <;> simp [hv, he]
    | ok id => simp [hv]

/-- The recorded run gives the response and the final store of the handler itself. -/
theorem run_eq_New {σ : Type} (validate : Request → Option (List String))
    (impl : URLSaver σ) (rnd : Nat → Nat → String) (body : Body) (s : σ) :
    (run validate impl rnd body s).1 = (New validate impl rnd body s).1 ∧
    (run validate impl rnd body s).2.1 = (New validate impl rnd body s).2 := by
  unfold run
  cases body with
  | eof => simp [New]
  | malformed => simp [New]
  | decoded req =>
    cases hval : validate req with
    | some errs => simp [New, hval]
    | none =>
      by_cases hA : req.Alias = ""
      · rcases hq : impl.URLExists s req.URL with ⟨r, s1⟩
        cases r with
        | error e => simp [New, hval, hA, recording_URLExists, hq]
        | ok found =>
          cases found with
          | true =>
            rcases hg : impl.GetAliasByURL s1 req.URL with ⟨r2, s2⟩
            cases r2 <;>
              simp [New, hval, hA, recording_URLExists, recording_GetAliasByURL, hq, hg]
          | false =>
            have hm := generateLoop_recording_map impl rnd maxAttempts 1 "" true s1
              [.URLExists req.URL (.ok false)]
            simp only [New, hval, hA, recording_URLExists, hq, if_true, List.nil_append]
            cases hl : generateLoop (recording impl) rnd maxAttempts 1 "" true
                (s1, [.URLExists req.URL (.ok false)]) with
            | failed st =>
              rw [hl] at hm
              simp only [LoopExit.map] at hm
              simp [← hm]
            | finished a f st =>
              rw [hl] at hm
              simp only [LoopExit.map] at hm
              rw [← hm]
              cases f with
              | true => simp
              | false =>
                simp only [Bool.false_eq_true, if_false]
                exact persist_recording_fst impl req.URL a st.1 st.2
      · simp only [New, hval, hA, if_false]
        exact persist_recording_fst impl req.URL req.Alias s []

end save

/-! ## Theorems: the SQLite storage -/

namespace Storage

theorem nextFault_rows (st : Storage) : st.nextFault.2.rows = st.rows := by
  unfold nextFault
  cases st.faults <;> rfl

theorem nextFault_healthy (rows : List Row) :
    (healthy rows).nextFault = (none, healthy rows) := rfl

/-- The query `AliasExists` changes no row. -/
theorem AliasExists_rows (st : Storage) (a : String) : (st.AliasExists a).2.rows = st.rows := by
  have h := nextFault_rows st
  unfold AliasExists
  rcases hq : st.nextFault with ⟨f, s1⟩
  rw [hq] at h
  rcases f with _ | ⟨_ | _⟩ <;> exact h

/-- The query `URLExists` changes no row. -/
theorem URLExists_rows (st : Storage) (u : String) : (st.URLExists u).2.rows = st.rows := by
  have h := nextFault_rows st
  unfold URLExists
  rcases hq : st.nextFault with ⟨f, s1⟩
  rw [hq] at h
  rcases f with _ | ⟨_ | _⟩ <;> exact h

/-- The query `GetAliasByURL` changes no row. -/
theorem GetAliasByURL_rows (st : Storage) (u : String) :
    (st.GetAliasByURL u).2.rows = st.rows := by
  have h := nextFault_rows st
  unfold GetAliasByURL
  rcases hq : st.nextFault with ⟨f, s1⟩
  rw [hq] at h
  rcases f with _ | ⟨_ | _⟩
  · simp only
    split <;> exact h
  · exact h
  · exact h

/-- The query `GetURL` changes no row. -/
theorem GetURL_rows (st : Storage) (a : String) : (st.GetURL a).2.rows = st.rows := by
  have h := nextFault_rows st
  unfold GetURL
  rcases hq : st.nextFault with ⟨f, s1⟩
  rw [hq] at h
  rcases f with _ | ⟨_ | _⟩
  · simp only
    split <;> exact h
  · exact h
  · exact h

/-- A `SaveURL` that returns an error changes no row; one that returns an id appended
exactly the row with that id, the alias and the URL, and the alias was free. -/
theorem SaveURL_rows (st : Storage) (u a : String) :
    (∃ e, (st.SaveURL u a).1 = .error e ∧ (st.SaveURL u a).2.rows = st.rows) ∨
    (∃ id, (st.SaveURL u a).1 = .ok id ∧
      (st.SaveURL u a).2.rows = st.rows ++ [{ id := id, alias_ := a, url := u }] ∧
      (∀ r ∈ st.rows, r.alias_ ≠ a) ∧ st.nextFault.1 = none) := by
  have h := nextFault_rows st
  unfold SaveURL
  rcases hq : st.nextFault with ⟨f, s1⟩
  rw [hq] at h
  rcases f with _ | ⟨_ | _⟩
  · simp only
    by_cases hx : (s1.rows.any fun r => decide (r.alias_ = a)) = true
    · left
      simp only [hx, if_true]
      exact ⟨_, rfl, h⟩
    · right
      simp only [hx, if_false]
      simp only at h
      refine ⟨_, rfl, by simp [h], ?_, trivial⟩
      intro r hr hra
      apply hx
      rw [h]
      exact List.any_eq_true.mpr ⟨r, hr, by simpa using hra⟩
  · left; exact ⟨_, rfl, h⟩
  · left; exact ⟨_, rfl, h⟩

end Storage

/-! ## Theorems: the save handler on the SQLite storage -/

namespace save

/-- The generation loop changes no row of the table. -/
theorem generateLoop_sqlite_rows (rnd : Nat → Nat → String) :
    ∀ (n att : Nat) (a : String) (f : Bool) (st : Storage),
      (generateLoop sqlite rnd n att a f st).state.rows = st.rows := by
  intro n
  induction n with
  | zero => intro att a f st; rfl
  | succ n ih =>
    intro att a f st
    have hr := Storage.AliasExists_rows st (rnd (att - 1) aliasLength)
    have hs : sqlite.AliasExists st (rnd (att - 1) aliasLength) =
        st.AliasExists (rnd (att - 1) aliasLength) := rfl
    rcases hq : st.AliasExists (rnd (att - 1) aliasLength) with ⟨r, s1⟩
    rw [hq] at hr
    simp only at hr
    cases r with
    | error e => simpa [generateLoop, hs, hq, LoopExit.state] using hr
    | ok found =>
      cases found with
      | false => simpa [generateLoop, hs, hq, LoopExit.state] using hr
      | true =>
        simp only [generateLoop, hs, hq, Bool.not_true, Bool.false_eq_true, if_false]
        rw [ih, hr]

/-- The end of the handler on the SQLite storage: the rows are unchanged, or the response
is `Ok` and one row was appended. -/
theorem persist_sqlite_rows (u a : String) (st : Storage) :
    ((persist sqlite u a st).1.toResponse.Status = .Error ∧
      (persist sqlite u a st).2.rows = st.rows) ∨
    (∃ id, (persist sqlite u a st).1 = responseOK a ∧
      (persist sqlite u a st).2.rows = st.rows ++ [{ id := id, alias_ := a, url := u }] ∧
      (∀ r ∈ st.rows, r.alias_ ≠ a) ∧ IsValidAlias a = true) := by
  have hs : sqlite.SaveURL st u a = st.SaveURL u a := rfl
  unfold persist
  cases hv : IsValidAlias a
  · left; simp [responseError, response.Error]
  · simp only [Bool.not_true, Bool.false_eq_true, if_false, hs]
    rcases Storage.SaveURL_rows st u a with ⟨e, h1, h2⟩ | ⟨id, h1, h2, h3, _⟩
    · left
      rcases hq : st.SaveURL u a with ⟨r, s1⟩
      rw [hq] at h1 h2
      simp only at h1 h2
      subst h1
      by_cases he : errorsIs e .ErrURLExists = true <;>
        simp [he, responseError, response.Error, h2]
    · right
      rcases hq : st.SaveURL u a with ⟨r, s1⟩
      rw [hq] at h1 h2
      simp only at h1 h2
      subst h1
      exact ⟨id, rfl, h2, h3, trivial⟩

/-- The handler on the SQLite storage: an error response leaves the rows as they were;
otherwise the rows are as they were or one row was appended. -/
theorem New_sqlite_rows (validate : Request → Option (List String))
    (rnd : Nat → Nat → String) (body : Body) (st : Storage) :
    (New validate sqlite rnd body st).2.rows = st.rows ∨
    ((New validate sqlite rnd body st).1.toResponse.Status = .Ok ∧
      ∃ row, (New validate sqlite rnd body st).2.rows = st.rows ++ [row]) := by
  cases body with
  | eof => left; rfl
  | malformed => left; rfl
  | decoded req =>
    cases hval : validate req with
    | some errs => left; simp [New, hval]
    | none =>
      have hp : ∀ (a : String) (s2 : Storage), s2.rows = st.rows →
          ((persist sqlite req.URL a s2).2.rows = st.rows ∨
            ((persist sqlite req.URL a s2).1.toResponse.Status = .Ok ∧
              ∃ row, (persist sqlite req.URL a s2).2.rows = st.rows ++ [row])) := by
        intro a s2 h2
        rcases persist_sqlite_rows req.URL a s2 with ⟨_, h⟩ | ⟨id, h3, h4, _, _⟩
        · left; rw [h, h2]
        · right
          rw [h3, h4, h2]
          exact ⟨rfl, _, rfl⟩
      by_cases hA : req.Alias = ""
      · have hu := Storage.URLExists_rows st req.URL
        have hs : sqlite.URLExists st req.URL = st.URLExists req.URL := rfl
        rcases hq : st.URLExists req.URL with ⟨r, s1⟩
        rw [hq] at hu
        simp only at hu
        cases r with
        | error e => left; simpa [New, hval, hA, hs, hq] using hu
        | ok found =>
          cases found with
          | true =>
            have hg := Storage.GetAliasByURL_rows s1 req.URL
            have hs2 : sqlite.GetAliasByURL s1 req.URL = s1.GetAliasByURL req.URL := rfl
            rcases hq2 : s1.GetAliasByURL req.URL with ⟨r2, s2⟩
            rw [hq2] at hg
            simp only at hg
            left
            cases r2 <;> simp [New, hval, hA, hs, hq, hs2, hq2, hg, hu]
          | false =>
            have hl := generateLoop_sqlite_rows rnd maxAttempts 1 "" true s1
            simp only [New, hval, hA, hs, hq, if_true]
            cases hx : generateLoop sqlite rnd maxAttempts 1 "" true s1 with
            | failed s2 =>
              rw [hx] at hl
              left
              simpa [LoopExit.state, hu] using hl
            | finished a f s2 =>
              rw [hx] at hl
              simp only [LoopExit.state] at hl
              cases f with
              | true => left; simp [hl, hu]
              | false =>
                simp only [Bool.false_eq_true, if_false]
                exact hp a s2 (by rw [hl, hu])
      · simp only [New, hval, hA, if_false]
        exact hp req.Alias st rfl

/-! ### A storage whose driver works -/

theorem healthy_AliasExists (rows : List Row) (a : String) :
    sqlite.AliasExists (Storage.healthy rows) a =
      (.ok (decide ((rows.filter (fun r => r.alias_ = a)).length > 0)), Storage.healthy rows) :=
  rfl

theorem healthy_URLExists (rows : List Row) (u : String) :
    sqlite.URLExists (Storage.healthy rows) u =
      (.ok (decide ((rows.filter (fun r => r.url = u)).length > 0)), Storage.healthy rows) :=
  rfl

theorem healthy_GetAliasByURL (rows : List Row) (u : String) :
    sqlite.GetAliasByURL (Storage.healthy rows) u =
      match rows.find? (fun r => r.url = u) with
      | none => (.error .ErrURLNotFound, Storage.healthy rows)
      | some r => (.ok r.alias_, Storage.healthy rows) := rfl

theorem healthy_GetURL (rows : List Row) (a : String) :
    (Storage.healthy rows).GetURL a =
      match rows.find? (fun r => r.alias_ = a) with
      | none => (.error .ErrURLNotFound, Storage.healthy rows)
      | some r => (.ok r.url, Storage.healthy rows) := rfl

theorem healthy_SaveURL (rows : List Row) (u a : String) :
    sqlite.SaveURL (Storage.healthy rows) u a =
      if rows.any (fun r => r.alias_ = a) then
        (.error (.wrap "storage.sqlite.SaveURL: " .ErrURLExists), Storage.healthy rows)
      else
        (.ok (Storage.nextRowid rows),
          Storage.healthy (rows ++ [{ id := Storage.nextRowid rows, alias_ := a, url := u }])) :=
  rfl

theorem healthy_DeleteURL (rows : List Row) (a : String) :
    (Storage.healthy rows).DeleteURL a =
      (none, Storage.healthy (rows.filter (fun r => ¬ r.alias_ = a))) := rfl

/-- On a storage whose driver works the loop is always left at the statement after it,
with the storage as it was. -/
theorem generateLoop_healthy (rnd : Nat → Nat → String) (rows : List Row) :
    ∀ (n att : Nat) (a : String) (f : Bool),
      ∃ a1 f1, generateLoop sqlite rnd n att a f (Storage.healthy rows) =
        .finished a1 f1 (Storage.healthy rows) := by
  intro n
  induction n with
  | zero => intro att a f; exact ⟨a, f, rfl⟩
  | succ n ih =>
    intro att a f
    simp only [generateLoop, healthy_AliasExists]
    cases hc : decide ((rows.filter (fun r => r.alias_ = rnd (att - 1) aliasLength)).length > 0)
    · exact ⟨_, _, rfl⟩
    · simp only [Bool.not_true, Bool.false_eq_true, if_false]
      exact ih _ _ _

/-- The end of the handler on a storage whose driver works. -/
theorem persist_healthy (rows : List Row) (u a : String) :
    persist sqlite u a (Storage.healthy rows) =
      if IsValidAlias a = false then (responseError "url alias not valid", Storage.healthy rows)
      else if rows.any (fun r => r.alias_ = a) then
        (responseError "url already exists", Storage.healthy rows)
      else
        (responseOK a,
          Storage.healthy (rows ++ [{ id := Storage.nextRowid rows, alias_ := a, url := u }])) := by
  unfold persist
  rw [healthy_SaveURL]
  cases hv : IsValidAlias a
  · simp
  · by_cases hx : (rows.any fun r => decide (r.alias_ = a)) = true
    · simp [hx, errorsIs]
    · simp [hx]

theorem filter_url_eq_nil {rows : List Row} {u : String} (hnew : ∀ r ∈ rows, r.url ≠ u) :
    rows.filter (fun r => r.url = u) = [] := by
  rw [List.filter_eq_nil_iff]
  intro r hr
  simpa using hnew r hr

/-- A successful save of a URL that is not stored, without alias, on a storage whose
driver works: the request passed validation and the storage gained the row of the URL under
the returned alias. -/
theorem New_healthy_generated (validate : Request → Option (List String))
    (rnd : Nat → Nat → String) (rows : List Row) (u a : String)
    (hnew : ∀ r ∈ rows, r.url ≠ u)
    (hfirst : (New validate sqlite rnd (.decoded ⟨u, ""⟩) (Storage.healthy rows)).1 =
      responseOK a) :
    validate ⟨u, ""⟩ = none ∧
    (New validate sqlite rnd (.decoded ⟨u, ""⟩) (Storage.healthy rows)).2 =
      Storage.healthy (rows ++ [{ id := Storage.nextRowid rows, alias_ := a, url := u }]) := by
  cases hval : validate ⟨u, ""⟩ with
  | some errs =>
    simp [New, hval, responseOK, response.ValidationError, response.Ok] at hfirst
  | none =>
    refine ⟨rfl, ?_⟩
    obtain ⟨a1, f1, hl⟩ := generateLoop_healthy rnd rows maxAttempts 1 "" true
    simp only [New, hval, if_true, healthy_URLExists, filter_url_eq_nil hnew, List.length_nil,
      gt_iff_lt, lt_self_iff_false, decide_False, hl] at hfirst ⊢
    cases f1 with
    | true => simp [responseError, responseOK, response.Error, response.Ok] at hfirst
    | false =>
      simp only [Bool.false_eq_true, if_false, persist_healthy] at hfirst ⊢
      cases hv : IsValidAlias a1
      · simp [hv, responseError, responseOK, response.Error, response.Ok] at hfirst
      · by_cases hx : (rows.any fun r => decide (r.alias_ = a1)) = true
        · simp [hv, hx, responseError, responseOK, response.Error, response.Ok] at hfirst
        · simp only [hv, hx, Bool.true_eq_false, if_false] at hfirst ⊢
          have : a1 = a := by simpa [responseOK] using hfirst
          subst this
          rfl

/-- Claim C2. Idempotent save: for every URL `u` not yet stored and every content of the
store (the driver working), if a save request with URL `u` and empty alias succeeds with
alias `a`, then a second save request with URL `u` and empty alias on the resulting store
returns status `Ok` with the same alias `a`, whatever the random generator returns, and
afterwards the store holds exactly one record whose URL is `u`. -/
theorem C2_idempotent_save (validate : Request → Option (List String))
    (rnd rnd2 : Nat → Nat → String) (rows : List Row) (u a : String)
    (hnew : ∀ r ∈ rows, r.url ≠ u)
    (hfirst : (New validate sqlite rnd (.decoded ⟨u, ""⟩) (Storage.healthy rows)).1 =
      responseOK a) :
    (New validate sqlite rnd2 (.decoded ⟨u, ""⟩)
        (New validate sqlite rnd (.decoded ⟨u, ""⟩) (Storage.healthy rows)).2).1 =
      responseOK a ∧
    ((New validate sqlite rnd2 (.decoded ⟨u, ""⟩)
        (New validate sqlite rnd (.decoded ⟨u, ""⟩) (Storage.healthy rows)).2).2.rows.filter
      (fun r => r.url = u)).length = 1 := by
  obtain ⟨hval, hst⟩ := New_healthy_generated validate rnd rows u a hnew hfirst
  rw [hst]
  have hfilter : (rows ++ [({ id := Storage.nextRowid rows, alias_ := a, url := u } : Row)]).filter
      (fun r => r.url = u) = [{ id := Storage.nextRowid rows, alias_ := a, url := u }] := by
    simp [List.filter_append, filter_url_eq_nil hnew]
  have hfind : (rows ++ [({ id := Storage.nextRowid rows, alias_ := a, url := u } : Row)]).find?
      (fun r => r.url = u) = some { id := Storage.nextRowid rows, alias_ := a, url := u } := by
    have hnone : rows.find? (fun r => decide (r.url = u)) = none := by
      rw [List.find?_eq_none]
      intro r hr
      simpa using hnew r hr
    simp [List.find?_append, hnone]
  simp only [New, hval, if_true, healthy_URLExists, healthy_GetAliasByURL, hfilter, hfind,
    List.length_singleton, gt_iff_lt, zero_lt_one, decide_True]
  simp [Storage.healthy, hfilter]

theorem C2_idempotent_save_witness :
    (∀ r ∈ ([] : List Row), r.url ≠ "https://example.com") ∧
    (New (fun _ => none) sqlite (fun _ _ => "abcd") (.decoded ⟨"https://example.com", ""⟩)
      (Storage.healthy [])).1 = responseOK "abcd" ∧
    (New (fun _ => none) sqlite (fun _ _ => "wxyz") (.decoded ⟨"https://example.com", ""⟩)
        (New (fun _ => none) sqlite (fun _ _ => "abcd") (.decoded ⟨"https://example.com", ""⟩)
          (Storage.healthy [])).2).1 = responseOK "abcd" ∧
    ((New (fun _ => none) sqlite (fun _ _ => "wxyz") (.decoded ⟨"https://example.com", ""⟩)
        (New (fun _ => none) sqlite (fun _ _ => "abcd") (.decoded ⟨"https://example.com", ""⟩)
          (Storage.healthy [])).2).2.rows.filter
      (fun r => r.url = "https://example.com")).length = 1 :=
  ⟨by simp, by decide,
    C2_idempotent_save (fun _ => none) (fun _ _ => "abcd") (fun _ _ => "wxyz") []
      "https://example.com" "abcd" (by simp) (by decide)⟩

/-! ### Exhaustion of the attempts -/

/-- If every `AliasExists` call on record at the end of the loop answered "exists", the
loop ran all its iterations, asked once per candidate and is left with `exists` true. -/
theorem generateLoop_all_exist {σ : Type} (impl : URLSaver σ) (rnd : Nat → Nat → String) :
    ∀ (n j : Nat) (a : String) (s : σ) (log : List Call),
      (∀ a1 r, Call.AliasExists a1 r ∈
          (generateLoop (recording impl) rnd n (j + 1) a true (s, log)).state.2 → r = .ok true) →
      ∃ a1 s1, generateLoop (recording impl) rnd n (j + 1) a true (s, log) =
        .finished a1 true (s1, log ++ (List.range n).map
          (fun k => Call.AliasExists (rnd (j + k) aliasLength) (.ok true))) := by
  intro n
  induction n with
  | zero => intro j a s log _; exact ⟨a, s, by simp [generateLoop]⟩
  | succ n ih =>
    intro j a s log hall
    obtain ⟨ext, h1, _⟩ := generateLoop_recording_log impl rnd n (j + 1 + 1)
      (rnd j aliasLength) true (impl.AliasExists s (rnd j aliasLength)).2
      (log ++ [.AliasExists (rnd j aliasLength) (impl.AliasExists s (rnd j aliasLength)).1])
    rcases hq : impl.AliasExists s (rnd j aliasLength) with ⟨r, s1⟩
    rw [hq] at h1
    simp only at h1
    have hstep : generateLoop (recording impl) rnd (n + 1) (j + 1) a true (s, log) =
        match r with
        | .error _ => .failed (s1, log ++ [.AliasExists (rnd j aliasLength) r])
        | .ok found =>
          if !found then
            .finished (rnd j aliasLength) found (s1, log ++ [.AliasExists (rnd j aliasLength) r])
          else generateLoop (recording impl) rnd n (j + 1 + 1) (rnd j aliasLength) found
            (s1, log ++ [.AliasExists (rnd j aliasLength) r]) := by
      simp only [generateLoop, Nat.add_sub_cancel, recording_AliasExists, hq]
      cases r <;> rfl
    have hr : r = .ok true := by
      apply hall (rnd j aliasLength) r
      rw [hstep]
      cases r with
      | error e => simp [LoopExit.state]
      | ok found =>
        cases found with
        | false => simp [LoopExit.state]
        | true =>
          simp only [Bool.not_true, Bool.false_eq_true, if_false]
          rw [h1]
          simp
    subst hr
    simp only [Bool.not_true, Bool.false_eq_true, if_false] at hstep
    rw [hstep] at hall ⊢
    obtain ⟨a1, s2, h2⟩ := ih (j + 1) (rnd j aliasLength) s1 _ hall
    refine ⟨a1, s2, ?_⟩
    rw [h2, List.range_succ_eq_map, List.map_cons, List.map_map]
    simp only [List.append_assoc, List.singleton_append, Nat.add_zero]
    congr 4
    apply List.map_congr_left
    intro k _
    simp only [Function.comp, Nat.succ_eq_add_one]
    congr 2
    omega

/-- Claim C3. Collision exhaustion: for every valid request with empty alias whose URL the
store reports as not stored, if the store reports every generated candidate as existing,
the handler answers with the error "The number of attempts to create an alias has been
exceeded. Try again after a while", `AliasExists` is queried exactly 64 times (once for
each of the 64 candidates, in order), and `SaveURL` is never called. -/
theorem C3_collision_exhaustion {σ : Type} (validate : Request → Option (List String))
    (impl : URLSaver σ) (rnd : Nat → Nat → String) (u : String) (s : σ)
    (hval : validate ⟨u, ""⟩ = none)
    (hnew : (impl.URLExists s u).1 = .ok false)
    (hall : ∀ c ∈ (run validate impl rnd (.decoded ⟨u, ""⟩) s).2.2, c.reportsExisting = true) :
    (run validate impl rnd (.decoded ⟨u, ""⟩) s).1 = responseError
      "The number of attempts to create an alias has been exceeded. Try again after a while" ∧
    ((run validate impl rnd (.decoded ⟨u, ""⟩) s).2.2.filter Call.isAliasExists).length = 64 ∧
    (∀ c ∈ (run validate impl rnd (.decoded ⟨u, ""⟩) s).2.2, c.isSaveURL = false) ∧
    (run validate impl rnd (.decoded ⟨u, ""⟩) s).2.2 =
      .URLExists u (.ok false) ::
        (List.range 64).map (fun k => Call.AliasExists (rnd k aliasLength) (.ok true)) := by
  rcases hq : impl.URLExists s u with ⟨r, s1⟩
  rw [hq] at hnew
  simp only at hnew
  subst hnew
  unfold run at hall ⊢
  simp only [New, hval, if_true, recording_URLExists, hq, List.nil_append] at hall ⊢
  have hall2 : ∀ a1 r, Call.AliasExists a1 r ∈
      (generateLoop (recording impl) rnd maxAttempts 1 "" true
        (s1, [.URLExists u (.ok false)])).state.2 → r = .ok true := by
    intro a1 r hmem
    cases hl : generateLoop (recording impl) rnd maxAttempts 1 "" true
        (s1, [.URLExists u (.ok false)]) with
    | failed st =>
      rw [hl] at hall hmem
      have := hall _ hmem
      rcases r with _ | _ | _ <;> simp_all [Call.reportsExisting]
    | finished a2 f st =>
      rw [hl] at hall hmem
      simp only [LoopExit.state] at hmem
      cases f with
      | true =>
        have := hall _ hmem
        rcases r with _ | _ | _ <;> simp_all [Call.reportsExisting]
      | false =>
        simp only [Bool.false_eq_true, if_false] at hall
        obtain ⟨st1, st2⟩ := st
        rw [persist_recording] at hall
        have hmem2 : Call.AliasExists a1 r ∈
            (if IsValidAlias a2 = false then (responseError "url alias not valid", (st1, st2))
              else ((persist impl u a2 st1).1, (impl.SaveURL st1 u a2).2,
                st2 ++ [.SaveURL u a2 (impl.SaveURL st1 u a2).1])).2.2 := by
          split
          · exact hmem
          · exact List.mem_append_left _ hmem
        have := hall _ hmem2
        rcases r with _ | _ | _ <;> simp_all [Call.reportsExisting]
  obtain ⟨a1, s2, hl⟩ := generateLoop_all_exist impl rnd maxAttempts 0 "" s1 _ hall2
  rw [Nat.zero_add] at hl
  rw [hl]
  simp only [if_true, Nat.zero_add, maxAttempts, List.singleton_append, true_and]
  refine ⟨?_, ?_, trivial⟩
  · simp [List.filter_cons, Call.isAliasExists, List.filter_map, Function.comp_def]
  · intro c hc
    rcases List.mem_cons.mp hc with rfl | hc
    · rfl
    · obtain ⟨k, _, rfl⟩ := List.mem_map.mp hc
      rfl

theorem C3_collision_exhaustion_witness :
    (sqlite.URLExists (Storage.healthy [⟨1, "abcd", "https://go.dev"⟩])
      "https://example.com").1 = .ok false ∧
    (run (fun _ => none) sqlite (fun _ _ => "abcd") (.decoded ⟨"https://example.com", ""⟩)
      (Storage.healthy [⟨1, "abcd", "https://go.dev"⟩])).1 = responseError
      "The number of attempts to create an alias has been exceeded. Try again after a while" ∧
    ((run (fun _ => none) sqlite (fun _ _ => "abcd") (.decoded ⟨"https://example.com", ""⟩)
      (Storage.healthy [⟨1, "abcd", "https://go.dev"⟩])).2.2.filter
        Call.isAliasExists).length = 64 ∧
    (∀ c ∈ (run (fun _ => none) sqlite (fun _ _ => "abcd")
      (.decoded ⟨"https://example.com", ""⟩)
      (Storage.healthy [⟨1, "abcd", "https://go.dev"⟩])).2.2, c.isSaveURL = false) ∧
    (run (fun _ => none) sqlite (fun _ _ => "abcd") (.decoded ⟨"https://example.com", ""⟩)
      (Storage.healthy [⟨1, "abcd", "https://go.dev"⟩])).2.2 =
      .URLExists "https://example.com" (.ok false) ::
        (List.range 64).map (fun _ => Call.AliasExists "abcd" (.ok true)) :=
  ⟨by decide,
    C3_collision_exhaustion (fun _ => none) sqlite (fun _ _ => "abcd") "https://example.com"
      (Storage.healthy [⟨1, "abcd", "https://go.dev"⟩]) rfl (by decide) (by decide)⟩

/-- Claim C4. For every save request whose URL is valid and whose alias is non-empty but
fails `IsValidAlias`, the handler answers with the error "url alias not valid", calls no
method of the store (so `SaveURL` is never called) and leaves the store as it was. -/
theorem C4_invalid_alias_rejected {σ : Type} (validate : Request → Option (List String))
    (impl : URLSaver σ) (rnd : Nat → Nat → String) (u a : String) (s : σ)
    (hval : validate ⟨u, a⟩ = none) (hne : a ≠ "") (hbad : IsValidAlias a = false) :
    run validate impl rnd (.decoded ⟨u, a⟩) s = (responseError "url alias not valid", s, []) := by
  simp [run, New, hval, hne, persist, hbad]

theorem C4_invalid_alias_rejected_witness :
    IsValidAlias "bad alias!" = false ∧
    run (fun _ => none) sqlite (fun _ _ => "abcd")
        (.decoded ⟨"https://example.com", "bad alias!"⟩) (Storage.healthy []) =
      (responseError "url alias not valid", Storage.healthy [], []) :=
  ⟨by decide,
    C4_invalid_alias_rejected (fun _ => none) sqlite (fun _ _ => "abcd") "https://example.com"
      "bad alias!" (Storage.healthy []) rfl (by decide) (by decide)⟩

end save

/-! ## Theorems: the delete handler -/

namespace delete

theorem errorsIs_wrap_other (text msg : String) (target : Error) (h : target = .ErrURLNotFound) :
    errorsIs (.wrap text (.other msg)) target = false := by
  subst h
  simp [errorsIs]

/-- Claim C5. On the SQLite storage the delete handler answers `Ok` for a valid alias that
has no record: `DeleteURL` returns `nil` whether or not a row was deleted.  On no storage
state and for no alias does the handler answer "url alias not found". -/
theorem C5_delete_unknown_alias_returns_ok :
    IsValidAlias "abcd" = true ∧
    New sqlite "abcd" (Storage.healthy []) = (response.Ok, Storage.healthy []) ∧
    (∀ (st : Storage) (a : String), (New sqlite a st).1 ≠ response.Error "url alias not found") := by
  refine ⟨by decide, by decide, ?_⟩
  intro st a
  unfold New
  by_cases h0 : a = ""
  · simp [h0, response.Error]
  · cases hv : IsValidAlias a
    · simp [h0, response.Error]
    · simp only [h0, if_false, Bool.not_true, Bool.false_eq_true]
      have hs : sqlite.DeleteURL st a = st.DeleteURL a := rfl
      rw [hs]
      unfold Storage.DeleteURL
      rcases st.nextFault with ⟨f, s1⟩
      rcases f with _ | ⟨_ | _⟩ <;>
        simp [errorsIs_wrap_other, response.Error, response.Ok]

/-- Claim C6. When the alias given to the delete handler is the empty string, it answers
with the error result whose message is "invalid alias", `DeleteURL` is not called, and the
store is left as it was, for every store and every state of it. -/
theorem C6_delete_empty_alias {σ : Type} (urlDeleter : URLDeleter σ) (s : σ) :
    New (recording urlDeleter) "" (s, []) = (response.Error "invalid alias", (s, [])) ∧
    (New (recording urlDeleter) "" (s, [])).1.Status = .Error ∧
    (New (recording urlDeleter) "" (s, [])).1.Error = "invalid alias" := by
  simp [New, response.Error]

end delete

/-! ## Theorems: save, resolve, delete -/

theorem IsValidAlias_ne_empty {a : String} (ha : IsValidAlias a = true) : a ≠ "" := by
  rintro rfl
  exact absurd ha (by decide)

theorem find?_alias_append_new (rows : List Row) (row : Row)
    (hfree : ∀ r ∈ rows, r.alias_ ≠ row.alias_) :
    (rows ++ [row]).find? (fun r => r.alias_ = row.alias_) = some row := by
  have hnone : rows.find? (fun r => decide (r.alias_ = row.alias_)) = none := by
    rw [List.find?_eq_none]
    intro r hr
    simpa using hfree r hr
  simp [List.find?_append, hnone]

theorem filter_alias_append_new (rows : List Row) (row : Row)
    (hfree : ∀ r ∈ rows, r.alias_ ≠ row.alias_) :
    (rows ++ [row]).filter (fun r => ¬ r.alias_ = row.alias_) = rows := by
  have hall : rows.filter (fun r => decide (¬ r.alias_ = row.alias_)) = rows := by
    rw [List.filter_eq_self]
    intro r hr
    simpa using hfree r hr
  simp only [List.filter_append, hall]
  simp

/-- Claim C7. Round trip: for every content of the store (the driver working) in which the
valid alias `a` is not stored and every valid URL `u`, saving `u` under `a` succeeds with
alias `a`, and resolving `a` with `GetURL` then returns `u`; after the delete handler has
deleted `a` (it answers `Ok`), resolving `a` returns the error `ErrURLNotFound`. -/
theorem C7_round_trip (validate : save.Request → Option (List String))
    (rnd : Nat → Nat → String) (rows : List Row) (u a : String)
    (hval : validate ⟨u, a⟩ = none) (ha : IsValidAlias a = true)
    (hfree : ∀ r ∈ rows, r.alias_ ≠ a) :
    (save.New validate save.sqlite rnd (.decoded ⟨u, a⟩) (Storage.healthy rows)).1 =
      save.responseOK a ∧
    ((save.New validate save.sqlite rnd (.decoded ⟨u, a⟩) (Storage.healthy rows)).2.GetURL a).1 =
      .ok u ∧
    (delete.New delete.sqlite a
      ((save.New validate save.sqlite rnd (.decoded ⟨u, a⟩)
        (Storage.healthy rows)).2.GetURL a).2).1 = response.Ok ∧
    ((delete.New delete.sqlite a
      ((save.New validate save.sqlite rnd (.decoded ⟨u, a⟩)
        (Storage.healthy rows)).2.GetURL a).2).2.GetURL a).1 = .error .ErrURLNotFound := by
  have hne := IsValidAlias_ne_empty ha
  have hany : (rows.any fun r => decide (r.alias_ = a)) = false := by
    rw [List.any_eq_false]
    intro r hr
    simpa using hfree r hr
  have hsave : save.New validate save.sqlite rnd (.decoded ⟨u, a⟩) (Storage.healthy rows) =
      (save.responseOK a,
        Storage.healthy (rows ++ [{ id := Storage.nextRowid rows, alias_ := a, url := u }])) := by
    simp [save.New, hval, hne, save.persist_healthy, ha, hany]
  have hfind := find?_alias_append_new rows { id := Storage.nextRowid rows, alias_ := a, url := u }
    hfree
  have hfilter := filter_alias_append_new rows
    { id := Storage.nextRowid rows, alias_ := a, url := u } hfree
  have hnone : rows.find? (fun r => decide (r.alias_ = a)) = none := by
    rw [List.find?_eq_none]
    intro r hr
    simpa using hfree r hr
  simp only at hfind hfilter
  have hdel : delete.New delete.sqlite a
      (Storage.healthy (rows ++ [{ id := Storage.nextRowid rows, alias_ := a, url := u }])) =
      (response.Ok, Storage.healthy rows) := by
    unfold delete.New
    have hs : ∀ st, delete.sqlite.DeleteURL st a = st.DeleteURL a := fun _ => rfl
    simp only [hne, if_false, ha, Bool.not_true, Bool.false_eq_true, hs,
      save.healthy_DeleteURL, hfilter]
  rw [hsave]
  simp only [save.healthy_GetURL, hfind, hdel, hnone, and_self]

theorem C7_round_trip_witness :
    (save.New (fun _ => none) save.sqlite (fun _ _ => "wxyz")
      (.decoded ⟨"https://example.com", "abcd"⟩) (Storage.healthy [])).1 =
      save.responseOK "abcd" ∧
    ((save.New (fun _ => none) save.sqlite (fun _ _ => "wxyz")
      (.decoded ⟨"https://example.com", "abcd"⟩) (Storage.healthy [])).2.GetURL "abcd").1 =
      .ok "https://example.com" ∧
    (delete.New delete.sqlite "abcd"
      ((save.New (fun _ => none) save.sqlite (fun _ _ => "wxyz")
        (.decoded ⟨"https://example.com", "abcd"⟩)
        (Storage.healthy [])).2.GetURL "abcd").2).1 = response.Ok ∧
    ((delete.New delete.sqlite "abcd"
      ((save.New (fun _ => none) save.sqlite (fun _ _ => "wxyz")
        (.decoded ⟨"https://example.com", "abcd"⟩)
        (Storage.healthy [])).2.GetURL "abcd").2).2.GetURL "abcd").1 = .error .ErrURLNotFound :=
  C7_round_trip (fun _ => none) (fun _ _ => "wxyz") [] "https://example.com" "abcd" rfl
    (by decide) (by simp)

namespace save

/-! ### Inserts per request -/

theorem filter_isSaveURL_eq_nil {log : List Call} (h : ∀ c ∈ log, c.isSaveURL = false) :
    log.filter Call.isSaveURL = [] := by
  rw [List.filter_eq_nil_iff]
  intro c hc
  simp [h c hc]

theorem filter_isInsert_eq_nil {log : List Call} (h : ∀ c ∈ log, c.isSaveURL = false) :
    log.filter Call.isInsert = [] := by
  rw [List.filter_eq_nil_iff]
  intro c hc
  have := h c hc
  cases c <;> simp_all [Call.isSaveURL, Call.isInsert]

/-- Counterexample to C8 as stated: "every call that returns `Ok` performs exactly one
successful insert" fails
for a request without alias whose URL is already stored: the answer is `Ok` with the stored
alias and nothing is inserted. -/
theorem C8_counterexample :
    (run (fun _ => none) sqlite (fun _ _ => "wxyz") (.decoded ⟨"https://example.com", ""⟩)
      (Storage.healthy [⟨1, "abcd", "https://example.com"⟩])).1.toResponse.Status = .Ok ∧
    ¬ ((run (fun _ => none) sqlite (fun _ _ => "wxyz") (.decoded ⟨"https://example.com", ""⟩)
      (Storage.healthy [⟨1, "abcd", "https://example.com"⟩])).2.2.filter
        Call.isInsert).length = 1 := by
  decide

/-- On the path of an already stored URL the alias in the last call on record is the
answer `GetAliasByURL` gave in the state `URLExists` left. -/
theorem run_stored_url_answer {σ : Type} (validate : Request → Option (List String))
    (impl : URLSaver σ) (rnd : Nat → Nat → String) (req : Request) (s : σ) (a : String)
    (hval : validate req = none) (hA : req.Alias = "")
    (hU : (impl.URLExists s req.URL).1 = .ok true)
    (hlog : (run validate impl rnd (.decoded req) s).2.2 =
      [.URLExists req.URL (.ok true), .GetAliasByURL req.URL (.ok a)]) :
    (impl.GetAliasByURL (impl.URLExists s req.URL).2 req.URL).1 = .ok a := by
  rcases hq : impl.URLExists s req.URL with ⟨r, s1⟩
  rw [hq] at hU
  simp only at hU
  subst hU
  rcases hg : impl.GetAliasByURL s1 req.URL with ⟨r2, s2⟩
  have hrun : (run validate impl rnd (.decoded req) s).2.2 =
      [.URLExists req.URL (.ok true), .GetAliasByURL req.URL r2] := by
    cases r2 <;>
      simp [run, New, hval, hA, recording_URLExists, recording_GetAliasByURL, hq, hg]
  rw [hrun] at hlog
  simpa using hlog

/-- Claim C8 (amended). Every call of the save handler that returns status `Ok` made no
`SaveURL` call that failed, and made exactly one successful insert, the `SaveURL` call for
the returned alias, which is its last call; except when the alias of the request is empty
and the store reports the URL as already stored: then no `SaveURL` call is made at all, the
only calls are `URLExists` and `GetAliasByURL`, and the alias returned is the existing one,
the alias `GetAliasByURL` gave for the URL. -/
theorem C8_inserts_on_success {σ : Type} (validate : Request → Option (List String))
    (impl : URLSaver σ) (rnd : Nat → Nat → String) (body : Body) (s : σ)
    (hok : (run validate impl rnd body s).1.toResponse.Status = .Ok) :
    ∃ req, body = .decoded req ∧
      ((run validate impl rnd body s).2.2.filter Call.isSaveURL).length =
        ((run validate impl rnd body s).2.2.filter Call.isInsert).length ∧
      ((run validate impl rnd body s).2.2.filter Call.isInsert).length =
        (if req.Alias = "" ∧ (impl.URLExists s req.URL).1 = .ok true then 0 else 1) ∧
      (req.Alias = "" ∧ (impl.URLExists s req.URL).1 = .ok true →
        ∃ a, (impl.GetAliasByURL (impl.URLExists s req.URL).2 req.URL).1 = .ok a ∧
          (run validate impl rnd body s).1 = responseOK a ∧
          (run validate impl rnd body s).2.2 =
            [.URLExists req.URL (.ok true), .GetAliasByURL req.URL (.ok a)]) ∧
      (¬ (req.Alias = "" ∧ (impl.URLExists s req.URL).1 = .ok true) →
        ∃ pre a id, (run validate impl rnd body s).1 = responseOK a ∧
          (run validate impl rnd body s).2.2 = pre ++ [.SaveURL req.URL a (.ok id)] ∧
          ∀ c ∈ pre, c.isSaveURL = false) := by
  rcases New_recording_shape validate impl rnd body s with ⟨herr, _⟩ | ⟨req, hb, hval, h⟩
  · rw [herr] at hok
    exact absurd hok (by decide)
  · refine ⟨req, hb, ?_⟩
    subst hb
    rcases h with ⟨pre, a, id, hresp, _, hlog, hpre, hnot⟩ | ⟨a, hresp, hA, hU, hlog⟩
    · refine ⟨?_, ?_, fun hc => absurd hc hnot, fun _ => ⟨pre, a, id, hresp, hlog, hpre⟩⟩
      · rw [hlog]
        simp [List.filter_append, filter_isSaveURL_eq_nil hpre, filter_isInsert_eq_nil hpre,
          Call.isSaveURL, Call.isInsert]
      · rw [hlog, if_neg hnot]
        simp [List.filter_append, filter_isInsert_eq_nil hpre, Call.isInsert]
    · refine ⟨?_, ?_, fun _ => ⟨a, ?_, hresp, hlog⟩, fun hc => absurd ⟨hA, hU⟩ hc⟩
      · rw [hlog]
        simp [Call.isSaveURL, Call.isInsert]
      · rw [hlog, if_pos ⟨hA, hU⟩]
        simp [Call.isInsert]
      · exact run_stored_url_answer validate impl rnd req s a hval hA hU hlog

theorem C8_inserts_on_success_witness :
    (run (fun _ => none) sqlite (fun _ _ => "wxyz") (.decoded ⟨"https://example.com", ""⟩)
      (Storage.healthy [⟨1, "abcd", "https://go.dev"⟩,
        ⟨2, "efgh", "https://example.com"⟩])).1.toResponse.Status = .Ok ∧
    ∃ req, Body.decoded ⟨"https://example.com", ""⟩ = .decoded req ∧
      ((run (fun _ => none) sqlite (fun _ _ => "wxyz") (.decoded ⟨"https://example.com", ""⟩)
        (Storage.healthy [⟨1, "abcd", "https://go.dev"⟩,
          ⟨2, "efgh", "https://example.com"⟩])).2.2.filter Call.isSaveURL).length =
        ((run (fun _ => none) sqlite (fun _ _ => "wxyz") (.decoded ⟨"https://example.com", ""⟩)
          (Storage.healthy [⟨1, "abcd", "https://go.dev"⟩,
            ⟨2, "efgh", "https://example.com"⟩])).2.2.filter Call.isInsert).length ∧
      ((run (fun _ => none) sqlite (fun _ _ => "wxyz") (.decoded ⟨"https://example.com", ""⟩)
        (Storage.healthy [⟨1, "abcd", "https://go.dev"⟩,
          ⟨2, "efgh", "https://example.com"⟩])).2.2.filter Call.isInsert).length =
        (if req.Alias = "" ∧
            (sqlite.URLExists (Storage.healthy [⟨1, "abcd", "https://go.dev"⟩,
              ⟨2, "efgh", "https://example.com"⟩]) req.URL).1 = .ok true
          then 0 else 1) ∧
      (req.Alias = "" ∧
          (sqlite.URLExists (Storage.healthy [⟨1, "abcd", "https://go.dev"⟩,
            ⟨2, "efgh", "https://example.com"⟩]) req.URL).1 = .ok true →
        ∃ a, (sqlite.GetAliasByURL
            (sqlite.URLExists (Storage.healthy [⟨1, "abcd", "https://go.dev"⟩,
              ⟨2, "efgh", "https://example.com"⟩]) req.URL).2 req.URL).1 = .ok a ∧
          (run (fun _ => none) sqlite (fun _ _ => "wxyz")
            (.decoded ⟨"https://example.com", ""⟩)
            (Storage.healthy [⟨1, "abcd", "https://go.dev"⟩,
              ⟨2, "efgh", "https://example.com"⟩])).1 = responseOK a ∧
          (run (fun _ => none) sqlite (fun _ _ => "wxyz")
            (.decoded ⟨"https://example.com", ""⟩)
            (Storage.healthy [⟨1, "abcd", "https://go.dev"⟩,
              ⟨2, "efgh", "https://example.com"⟩])).2.2 =
            [.URLExists req.URL (.ok true), .GetAliasByURL req.URL (.ok a)]) ∧
      (¬ (req.Alias = "" ∧
          (sqlite.URLExists (Storage.healthy [⟨1, "abcd", "https://go.dev"⟩,
            ⟨2, "efgh", "https://example.com"⟩]) req.URL).1 = .ok true) →
        ∃ pre a id,
          (run (fun _ => none) sqlite (fun _ _ => "wxyz")
            (.decoded ⟨"https://example.com", ""⟩)
            (Storage.healthy [⟨1, "abcd", "https://go.dev"⟩,
              ⟨2, "efgh", "https://example.com"⟩])).1 = responseOK a ∧
          (run (fun _ => none) sqlite (fun _ _ => "wxyz")
            (.decoded ⟨"https://example.com", ""⟩)
            (Storage.healthy [⟨1, "abcd", "https://go.dev"⟩,
              ⟨2, "efgh", "https://example.com"⟩])).2.2 =
            pre ++ [.SaveURL req.URL a (.ok id)] ∧
          ∀ c ∈ pre, c.isSaveURL = false) :=
  ⟨by decide,
    C8_inserts_on_success (fun _ => none) sqlite (fun _ _ => "wxyz")
      (.decoded ⟨"https://example.com", ""⟩)
      (Storage.healthy [⟨1, "abcd", "https://go.dev"⟩, ⟨2, "efgh", "https://example.com"⟩])
      (by decide)⟩

/-- Claim C9. Atomicity on failure: for every request, every content of the store and
whatever the driver reports, if the save handler returns an `Error` result, then no insert
happened (no `SaveURL` call returned without error) and the stored records are unchanged. -/
theorem C9_atomicity_on_failure (validate : Request → Option (List String))
    (rnd : Nat → Nat → String) (body : Body) (st : Storage)
    (herr : (run validate sqlite rnd body st).1.toResponse.Status = .Error) :
    (∀ c ∈ (run validate sqlite rnd body st).2.2, c.isInsert = false) ∧
    (run validate sqlite rnd body st).2.1.rows = st.rows := by
  constructor
  · rcases New_recording_shape validate sqlite rnd body st with ⟨_, h⟩ | ⟨req, _, _, h⟩
    · exact h
    · rcases h with ⟨_, a, _, h, _⟩ | ⟨a, h, _⟩ <;>
      · rw [h] at herr
        simp [responseOK, response.Ok] at herr
  · obtain ⟨h1, h2⟩ := run_eq_New validate sqlite rnd body st
    rw [h2]
    rcases New_sqlite_rows validate rnd body st with h | ⟨h, _⟩
    · exact h
    · rw [h1] at herr
      rw [herr] at h
      exact absurd h (by decide)

theorem C9_atomicity_on_failure_witness :
    (run (fun _ => none) sqlite (fun _ _ => "wxyz") (.decoded ⟨"https://example.com", "abcd"⟩)
      ⟨[⟨1, "abcd", "https://go.dev"⟩], [none, some (.execute "disk I/O error")]⟩).1.toResponse.Status
      = .Error ∧
    (∀ c ∈ (run (fun _ => none) sqlite (fun _ _ => "wxyz")
      (.decoded ⟨"https://example.com", "abcd"⟩)
      ⟨[⟨1, "abcd", "https://go.dev"⟩], [none, some (.execute "disk I/O error")]⟩).2.2,
      c.isInsert = false) ∧
    (run (fun _ => none) sqlite (fun _ _ => "wxyz") (.decoded ⟨"https://example.com", "abcd"⟩)
      ⟨[⟨1, "abcd", "https://go.dev"⟩], [none, some (.execute "disk I/O error")]⟩).2.1.rows =
      [⟨1, "abcd", "https://go.dev"⟩] :=
  ⟨by decide,
    C9_atomicity_on_failure (fun _ => none) (fun _ _ => "wxyz")
      (.decoded ⟨"https://example.com", "abcd"⟩)
      ⟨[⟨1, "abcd", "https://go.dev"⟩], [none, some (.execute "disk I/O error")]⟩ (by decide)⟩

/-- Claim C10. For every valid save request with a valid (hence non-empty) alias: if the
alias is already taken in the store and the driver works, `SaveURL` fails with an error
that is `ErrURLExists`, the handler answers "url already exists" after that single
`SaveURL` call (no retry, no other call), and the stored records are unchanged; and on
any store, when `SaveURL` fails with an error that is not `ErrURLExists`, the handler
answers "failed to add url". -/
theorem C10_alias_conflict (validate : Request → Option (List String))
    (rnd : Nat → Nat → String) (u a : String)
    (hval : validate ⟨u, a⟩ = none) (ha : IsValidAlias a = true) :
    (∀ st : Storage, st.nextFault.1 = none → (∃ r ∈ st.rows, r.alias_ = a) →
      ∃ e, (sqlite.SaveURL st u a).1 = .error e ∧ errorsIs e .ErrURLExists = true ∧
        (run validate sqlite rnd (.decoded ⟨u, a⟩) st).1 = responseError "url already exists" ∧
        (run validate sqlite rnd (.decoded ⟨u, a⟩) st).2.2 = [.SaveURL u a (.error e)] ∧
        (run validate sqlite rnd (.decoded ⟨u, a⟩) st).2.1.rows = st.rows) ∧
    (∀ (σ : Type) (impl : URLSaver σ) (s : σ) (e : Error),
      (impl.SaveURL s u a).1 = .error e → errorsIs e .ErrURLExists = false →
        (run validate impl rnd (.decoded ⟨u, a⟩) s).1 = responseError "failed to add url" ∧
        (run validate impl rnd (.decoded ⟨u, a⟩) s).2.2 = [.SaveURL u a (.error e)]) := by
  have hne := IsValidAlias_ne_empty ha
  have hrun : ∀ (σ : Type) (impl : URLSaver σ) (s : σ),
      run validate impl rnd (.decoded ⟨u, a⟩) s =
        ((persist impl u a s).1, (impl.SaveURL s u a).2, [.SaveURL u a (impl.SaveURL s u a).1]) := by
    intro σ impl s
    simp [run, New, hval, hne, persist_recording, ha]
  constructor
  · intro st hf ⟨r, hr, hra⟩
    have hany : (st.nextFault.2.rows.any fun r => decide (r.alias_ = a)) = true := by
      rw [Storage.nextFault_rows]
      exact List.any_eq_true.mpr ⟨r, hr, by simpa using hra⟩
    have hsave : sqlite.SaveURL st u a =
        (.error (.wrap "storage.sqlite.SaveURL: " .ErrURLExists), st.nextFault.2) := by
      show st.SaveURL u a = _
      unfold Storage.SaveURL
      rcases hq : st.nextFault with ⟨f, s1⟩
      rw [hq] at hf hany
      simp only at hf hany
      subst hf
      simp [hany]
    refine ⟨_, by rw [hsave], by simp [errorsIs], ?_, ?_, ?_⟩
    · rw [hrun]
      simp [persist, ha, hsave, errorsIs]
    · rw [hrun, hsave]
    · rw [hrun, hsave]
      exact Storage.nextFault_rows st
  · intro σ impl s e he hnot
    rw [hrun]
    rcases hq : impl.SaveURL s u a with ⟨r, s1⟩
    rw [hq] at he
    simp only at he
    subst he
    simp [persist, ha, hq, hnot]

theorem C10_alias_conflict_witness :
    IsValidAlias "abcd" = true ∧
    (∃ e, (sqlite.SaveURL (Storage.healthy [⟨1, "abcd", "https://go.dev"⟩])
        "https://example.com" "abcd").1 = .error e ∧ errorsIs e .ErrURLExists = true ∧
      (run (fun _ => none) sqlite (fun _ _ => "wxyz")
        (.decoded ⟨"https://example.com", "abcd"⟩)
        (Storage.healthy [⟨1, "abcd", "https://go.dev"⟩])).1 =
        responseError "url already exists" ∧
      (run (fun _ => none) sqlite (fun _ _ => "wxyz")
        (.decoded ⟨"https://example.com", "abcd"⟩)
        (Storage.healthy [⟨1, "abcd", "https://go.dev"⟩])).2.2 =
        [.SaveURL "https://example.com" "abcd" (.error e)] ∧
      (run (fun _ => none) sqlite (fun _ _ => "wxyz")
        (.decoded ⟨"https://example.com", "abcd"⟩)
        (Storage.healthy [⟨1, "abcd", "https://go.dev"⟩])).2.1.rows =
        [⟨1, "abcd", "https://go.dev"⟩]) ∧
    ((run (fun _ => none) sqlite (fun _ _ => "wxyz")
        (.decoded ⟨"https://example.com", "abcd"⟩)
        ⟨[], [some (.prepare "database is locked")]⟩).1 = responseError "failed to add url" ∧
      (run (fun _ => none) sqlite (fun _ _ => "wxyz")
        (.decoded ⟨"https://example.com", "abcd"⟩)
        ⟨[], [some (.prepare "database is locked")]⟩).2.2 =
        [.SaveURL "https://example.com" "abcd"
          (.error (.wrap "storage.sqlite.SaveURL: " (.other "database is locked")))]) :=
  ⟨by decide,
    (C10_alias_conflict (fun _ => none) (fun _ _ => "wxyz") "https://example.com" "abcd" rfl
      (by decide)).1 (Storage.healthy [⟨1, "abcd", "https://go.dev"⟩]) rfl
      ⟨⟨1, "abcd", "https://go.dev"⟩, List.mem_singleton.mpr rfl, rfl⟩,
    (C10_alias_conflict (fun _ => none) (fun _ _ => "wxyz") "https://example.com" "abcd" rfl
      (by decide)).2 Storage sqlite ⟨[], [some (.prepare "database is locked")]⟩
      (.wrap "storage.sqlite.SaveURL: " (.other "database is locked")) rfl (by decide)⟩

end save

/-! ## Theorems: the delete handler against any deleter -/

namespace delete

/-- Claim C12. For every non-empty alias the delete handler answers as its test table
states.  If the alias fails `IsValidAlias` (such as `"!@#$%"`, also in its escaped form)
the answer is the error
"url alias not valid" and `DeleteURL` is not called.  Otherwise `DeleteURL` is called
exactly once, with that alias, and the answer is status `Ok` with an empty error when it
returns `nil`, the error "url alias not found" when it returns an error that is
`ErrURLNotFound`, and the error "failed to delete url" for any other error. -/
theorem C12_delete_response_table {σ : Type} (urlDeleter : URLDeleter σ) (a : String) (s : σ)
    (hne : a ≠ "") :
    IsValidAlias "!@#$%" = false ∧ IsValidAlias "%21%40%23%24%25" = false ∧
    (IsValidAlias a = false →
      New (recording urlDeleter) a (s, []) = (response.Error "url alias not valid", (s, []))) ∧
    (IsValidAlias a = true →
      (New (recording urlDeleter) a (s, [])).2 =
        ((urlDeleter.DeleteURL s a).2, [(a, (urlDeleter.DeleteURL s a).1)]) ∧
      ((urlDeleter.DeleteURL s a).1 = none →
        (New (recording urlDeleter) a (s, [])).1 = { Status := .Ok, Error := "" }) ∧
      (∀ e, (urlDeleter.DeleteURL s a).1 = some e → errorsIs e .ErrURLNotFound = true →
        (New (recording urlDeleter) a (s, [])).1 =
          { Status := .Error, Error := "url alias not found" }) ∧
      (∀ e, (urlDeleter.DeleteURL s a).1 = some e → errorsIs e .ErrURLNotFound = false →
        (New (recording urlDeleter) a (s, [])).1 =
          { Status := .Error, Error := "failed to delete url" })) := by
  refine ⟨by decide, by decide, ?_, ?_⟩
  · intro hv
    simp [New, hne, hv]
  · intro hv
    rcases hq : urlDeleter.DeleteURL s a with ⟨r, s1⟩
    have hrec : (recording urlDeleter).DeleteURL (s, []) a = (r, (s1, [(a, r)])) := by
      simp [recording, hq]
    cases r with
    | none => simp [New, hne, hv, hrec, response.Ok]
    | some err =>
      by_cases he : errorsIs err .ErrURLNotFound = true
      · simp [New, hne, hv, hrec, he, response.Error]
      · simp only [Bool.not_eq_true] at he
        simp [New, hne, hv, hrec, he, response.Error]

theorem C12_delete_response_table_witness :
    (New (recording sqlite) "testalias" (Storage.healthy [⟨1, "testalias", "https://go.dev"⟩], [])).2
      = (Storage.healthy [], [("testalias", none)]) ∧
    (New (recording sqlite) "testalias"
      (Storage.healthy [⟨1, "testalias", "https://go.dev"⟩], [])).1 =
      { Status := .Ok, Error := "" } :=
  ⟨((C12_delete_response_table sqlite "testalias"
      (Storage.healthy [⟨1, "testalias", "https://go.dev"⟩]) (by decide)).2.2.2 (by decide)).1,
    ((C12_delete_response_table sqlite "testalias"
      (Storage.healthy [⟨1, "testalias", "https://go.dev"⟩]) (by decide)).2.2.2 (by decide)).2.1
      rfl⟩

end delete

/-! ## Theorems: what a successful save leaves in the storage -/

namespace Storage

/-- The method `DeleteURL` leaves the rows as they were (the statement failed) or removes the
rows with the alias. -/
theorem DeleteURL_rows (st : Storage) (a : String) :
    (st.DeleteURL a).2.rows = st.rows ∨
    (st.DeleteURL a).2.rows = st.rows.filter (fun r => ¬ r.alias_ = a) := by
  have h := nextFault_rows st
  unfold DeleteURL
  rcases hq : st.nextFault with ⟨f, s1⟩
  rw [hq] at h
  simp only at h
  rcases f with _ | ⟨_ | _⟩
  · right; simp [h]
  · left; exact h
  · left; exact h

/-- An alias returned by `GetAliasByURL` is the alias of the first row with the URL. -/
theorem GetAliasByURL_ok (st : Storage) (u a : String)
    (h : (st.GetAliasByURL u).1 = .ok a) :
    ∃ row, st.rows.find? (fun r => r.url = u) = some row ∧ row.alias_ = a := by
  have hr := nextFault_rows st
  unfold GetAliasByURL at h
  rcases hq : st.nextFault with ⟨f, s1⟩
  rw [hq] at h hr
  simp only at h hr
  rcases f with _ | ⟨_ | _⟩
  · simp only at h
    rw [hr] at h
    cases hf : st.rows.find? (fun r => decide (r.url = u)) with
    | none => simp [hf] at h
    | some row =>
      simp only [hf, Except.ok.injEq] at h
      exact ⟨row, rfl, h⟩
  · simp at h
  · simp at h

/-- With the driver working, `GetURL` returns the URL of the first row with the alias. -/
theorem GetURL_of_find (st : Storage) (a : String) (row : Row)
    (hf : st.nextFault.1 = none)
    (hrow : st.rows.find? (fun r => r.alias_ = a) = some row) :
    (st.GetURL a).1 = .ok row.url := by
  have hr := nextFault_rows st
  unfold GetURL
  rcases hq : st.nextFault with ⟨f, s1⟩
  rw [hq] at hf hr
  simp only at hf hr
  subst hf
  simp only [hr, hrow]

end Storage

namespace save

/-- The response of the handler is an error or `responseOK` of some alias. -/
theorem New_status_cases {σ : Type} (validate : Request → Option (List String))
    (impl : URLSaver σ) (rnd : Nat → Nat → String) (body : Body) (s : σ) :
    (New validate impl rnd body s).1.toResponse.Status = .Error ∨
    ∃ a, (New validate impl rnd body s).1 = responseOK a := by
  rw [← (run_eq_New validate impl rnd body s).1]
  rcases New_recording_shape validate impl rnd body s with ⟨h, _⟩ | ⟨_, _, _, h⟩
  · exact Or.inl h
  · rcases h with ⟨_, a, _, h, _⟩ | ⟨a, h, _⟩ <;> exact Or.inr ⟨a, h⟩

/-- A successful save on the SQLite storage either appended the row of the request's URL
under the returned alias, which was free and is valid, or changed no row and returned the
alias of the first row with the request's URL. -/
theorem New_sqlite_ok (validate : Request → Option (List String))
    (rnd : Nat → Nat → String) (body : Body) (st : Storage) (a : String)
    (hok : (New validate sqlite rnd body st).1 = responseOK a) :
    ∃ req, body = .decoded req ∧
      ((∃ id, (New validate sqlite rnd body st).2.rows =
            st.rows ++ [{ id := id, alias_ := a, url := req.URL }] ∧
          (∀ r ∈ st.rows, r.alias_ ≠ a) ∧ IsValidAlias a = true) ∨
       ((New validate sqlite rnd body st).2.rows = st.rows ∧
          ∃ row, st.rows.find? (fun r => r.url = req.URL) = some row ∧ row.alias_ = a)) := by
  have hne : ∀ msg : String, responseError msg ≠ responseOK a := by
    intro msg h
    simp [responseError, responseOK, response.Error, response.Ok] at h
  cases body with
  | eof => exact absurd hok (hne _)
  | malformed => exact absurd hok (hne _)
  | decoded req =>
    refine ⟨req, rfl, ?_⟩
    cases hval : validate req with
    | some errs =>
      simp [New, hval, responseOK, response.ValidationError, response.Ok] at hok
    | none =>
      have hp : ∀ (a1 : String) (s2 : Storage), s2.rows = st.rows →
          (persist sqlite req.URL a1 s2).1 = responseOK a →
          ∃ id, (persist sqlite req.URL a1 s2).2.rows =
              st.rows ++ [{ id := id, alias_ := a, url := req.URL }] ∧
            (∀ r ∈ st.rows, r.alias_ ≠ a) ∧ IsValidAlias a = true := by
        intro a1 s2 h2 hr
        rcases persist_sqlite_rows req.URL a1 s2 with ⟨h, _⟩ | ⟨id, h3, h4, h5, h6⟩
        · rw [hr] at h
          simp [responseOK, response.Ok] at h
        · have : a1 = a := by
            rw [h3] at hr
            simpa [responseOK] using hr
          subst this
          exact ⟨id, by rw [h4, h2], by rw [← h2]; exact h5, h6⟩
      by_cases hA : req.Alias = ""
      · have hu := Storage.URLExists_rows st req.URL
        have hs : sqlite.URLExists st req.URL = st.URLExists req.URL := rfl
        rcases hq : st.URLExists req.URL with ⟨r, s1⟩
        rw [hq] at hu
        simp only at hu
        cases r with
        | error e =>
          simp only [New, hval, hA, hs, hq, if_true] at hok
          exact absurd hok (hne _)
        | ok found =>
          cases found with
          | true =>
            have hg := Storage.GetAliasByURL_rows s1 req.URL
            have hs2 : sqlite.GetAliasByURL s1 req.URL = s1.GetAliasByURL req.URL := rfl
            rcases hq2 : s1.GetAliasByURL req.URL with ⟨r2, s2⟩
            rw [hq2] at hg
            simp only at hg
            cases r2 with
            | error e =>
              simp only [New, hval, hA, hs, hq, hs2, hq2, if_true] at hok
              exact absurd hok (hne _)
            | ok a2 =>
              simp only [New, hval, hA, hs, hq, hs2, hq2, if_true] at hok ⊢
              have : a2 = a := by simpa [responseOK] using hok
              subst this
              right
              refine ⟨by rw [hg, hu], ?_⟩
              have := Storage.GetAliasByURL_ok s1 req.URL a2 (by rw [hq2])
              rwa [hu] at this
          | false =>
            have hl := generateLoop_sqlite_rows rnd maxAttempts 1 "" true s1
            simp only [New, hval, hA, hs, hq, if_true] at hok ⊢
            cases hx : generateLoop sqlite rnd maxAttempts 1 "" true s1 with
            | failed s2 =>
              rw [hx] at hok
              exact absurd hok (hne _)
            | finished a1 f s2 =>
              rw [hx] at hl hok
              simp only [LoopExit.state] at hl
              cases f with
              | true =>
                simp only [if_true] at hok
                exact absurd hok (hne _)
              | false =>
                simp only [Bool.false_eq_true, if_false] at hok ⊢
                exact Or.inl (hp a1 s2 (by rw [hl, hu]) hok)
      · simp only [New, hval, hA, if_false] at hok ⊢
        exact Or.inl (hp req.Alias st rfl hok)

end save

/-! ## Theorems: alias uniqueness -/

theorem UniqueAliases_append (rows : List Row) (row : Row)
    (h : (rows.map (fun r => r.alias_)).Nodup) (hfree : ∀ r ∈ rows, r.alias_ ≠ row.alias_) :
    ((rows ++ [row]).map (fun r => r.alias_)).Nodup := by
  rw [List.map_append, List.nodup_append]
  refine ⟨h, by simp, ?_⟩
  intro x hx hy
  obtain ⟨r, hr, rfl⟩ := List.mem_map.mp hx
  simp only [List.map_cons, List.map_nil, List.mem_singleton] at hy
  exact hfree r hr hy

theorem UniqueAliases_filter (rows : List Row) (p : Row → Bool)
    (h : (rows.map (fun r => r.alias_)).Nodup) :
    ((rows.filter p).map (fun r => r.alias_)).Nodup :=
  h.sublist ((List.filter_sublist rows).map _)

/-- The delete handler on the SQLite storage leaves the rows as they were or removes the
rows with the alias. -/
theorem delete.New_sqlite_rows_after_delete (a : String) (st : Storage) :
    (delete.New delete.sqlite a st).2.rows = st.rows ∨
    (delete.New delete.sqlite a st).2.rows = st.rows.filter (fun r => ¬ r.alias_ = a) := by
  unfold delete.New
  by_cases h0 : a = ""
  · left; simp [h0]
  · cases hv : IsValidAlias a
    · left; simp [h0]
    · simp only [h0, if_false, Bool.not_true, Bool.false_eq_true]
      have hs : delete.sqlite.DeleteURL st a = st.DeleteURL a := rfl
      rw [hs]
      have hd := Storage.DeleteURL_rows st a
      rcases hq : st.DeleteURL a with ⟨r, s1⟩
      rw [hq] at hd
      simp only at hd
      cases r with
      | none => exact hd
      | some err => by_cases he : errorsIs err .ErrURLNotFound = true <;> simpa [he] using hd

/-- Every operation keeps the aliases of the table distinct. -/
theorem Op.apply_UniqueAliases (op : Op) (st : Storage) (h : st.UniqueAliases) :
    (op.apply st).UniqueAliases := by
  unfold Storage.UniqueAliases at h ⊢
  cases op with
  | SaveURL u a =>
    rcases Storage.SaveURL_rows st u a with ⟨_, _, h2⟩ | ⟨id, _, h2, h3, _⟩
    · simp only [Op.apply, h2]; exact h
    · simp only [Op.apply, h2]
      exact UniqueAliases_append st.rows _ h h3
  | DeleteURL a =>
    rcases Storage.DeleteURL_rows st a with h2 | h2
    · simp only [Op.apply, h2]; exact h
    · simp only [Op.apply, h2]
      exact UniqueAliases_filter st.rows _ h
  | save validate rnd body =>
    rcases save.New_status_cases validate save.sqlite rnd body st with herr | ⟨a, hok⟩
    · rcases save.New_sqlite_rows validate rnd body st with h2 | ⟨h2, _⟩
      · simp only [Op.apply, h2]; exact h
      · rw [herr] at h2
        exact absurd h2 (by decide)
    · obtain ⟨req, _, h2⟩ := save.New_sqlite_ok validate rnd body st a hok
      rcases h2 with ⟨id, h2, h3, _⟩ | ⟨h2, _⟩
      · simp only [Op.apply, h2]
        exact UniqueAliases_append st.rows _ h h3
      · simp only [Op.apply, h2]; exact h
  | delete a =>
    rcases delete.New_sqlite_rows_after_delete a st with h2 | h2
    · simp only [Op.apply, h2]; exact h
    · simp only [Op.apply, h2]
      exact UniqueAliases_filter st.rows _ h

theorem Storage.after_UniqueAliases (ops : List Op) :
    ∀ st : Storage, st.UniqueAliases → (Storage.after ops st).UniqueAliases := by
  induction ops with
  | nil => intro st h; exact h
  | cons op ops ih =>
    intro st h
    exact ih (op.apply st) (op.apply_UniqueAliases st h)

/-- Claim C11. Alias uniqueness is an invariant of the store: starting from the empty table,
whatever the driver reports, after any sequence of `SaveURL` calls, `DeleteURL` calls and
requests served by the save and delete handlers, no two stored records have the same
alias. -/
theorem C11_alias_uniqueness (faults : List (Option Fault)) (ops : List Op) :
    (Storage.after ops { rows := [], faults := faults }).UniqueAliases ∧
    ∀ r1 ∈ (Storage.after ops { rows := [], faults := faults }).rows,
      ∀ r2 ∈ (Storage.after ops { rows := [], faults := faults }).rows,
        r1.alias_ = r2.alias_ → r1 = r2 := by
  have h : (Storage.after ops { rows := [], faults := faults }).UniqueAliases :=
    Storage.after_UniqueAliases ops _ (by simp [Storage.UniqueAliases])
  refine ⟨h, ?_⟩
  intro r1 h1 r2 h2 heq
  exact List.inj_on_of_nodup_map h h1 h2 heq

theorem C11_alias_uniqueness_witness :
    (Storage.after
      [.SaveURL "https://go.dev" "abcd", .SaveURL "https://example.com" "abcd",
        .save (fun _ => none) (fun _ _ => "abcd") (.decoded ⟨"https://lean-lang.org", ""⟩),
        .save (fun _ => none) (fun _ _ => "wxyz") (.decoded ⟨"https://example.com", "wxyz"⟩),
        .delete "wxyz", .DeleteURL "zzzz"]
      { rows := [], faults := [] }).UniqueAliases :=
  (C11_alias_uniqueness []
    [.SaveURL "https://go.dev" "abcd", .SaveURL "https://example.com" "abcd",
      .save (fun _ => none) (fun _ _ => "abcd") (.decoded ⟨"https://lean-lang.org", ""⟩),
      .save (fun _ => none) (fun _ _ => "wxyz") (.decoded ⟨"https://example.com", "wxyz"⟩),
      .delete "wxyz", .DeleteURL "zzzz"]).1

/-! ## Theorems: a returned alias resolves to the URL -/

namespace save

/-- In a table with distinct aliases, the first row with the alias of a row of the table
is that row. -/
theorem find?_alias_of_unique (rows : List Row) (row : Row)
    (h : (rows.map (fun r => r.alias_)).Nodup) (hrow : row ∈ rows) :
    rows.find? (fun r => r.alias_ = row.alias_) = some row := by
  cases hf : rows.find? (fun r => decide (r.alias_ = row.alias_)) with
  | none =>
    rw [List.find?_eq_none] at hf
    have := hf row hrow
    simp at this
  | some r1 =>
    have h1 : r1 ∈ rows := List.mem_of_find?_eq_some hf
    have h2 : r1.alias_ = row.alias_ := by simpa using List.find?_some hf
    rw [List.inj_on_of_nodup_map h h1 hrow h2]

/-- Claim C14. For every request with URL `u` and every state of the store whose aliases are
distinct, whenever the save handler returns status `Ok` with alias `a` (on the path of a
supplied alias, of a generated alias or of an already stored URL), resolving `a` with
`GetURL` on the resulting store, the driver working, returns `u`. -/
theorem C14_saved_alias_resolves (validate : Request → Option (List String))
    (rnd : Nat → Nat → String) (st : Storage) (u al a : String)
    (huniq : st.UniqueAliases)
    (hok : (New validate sqlite rnd (.decoded ⟨u, al⟩) st).1 = responseOK a)
    (hdrv : (New validate sqlite rnd (.decoded ⟨u, al⟩) st).2.nextFault.1 = none) :
    ((New validate sqlite rnd (.decoded ⟨u, al⟩) st).2.GetURL a).1 = .ok u := by
  obtain ⟨req, hreq, h⟩ := New_sqlite_ok validate rnd (.decoded ⟨u, al⟩) st a hok
  have hreq2 : req = ⟨u, al⟩ := by
    simpa using hreq.symm
  subst hreq2
  simp only at h
  rcases h with ⟨id, h1, h2, _⟩ | ⟨h1, row, h2, h3⟩
  · have hfind := find?_alias_append_new st.rows { id := id, alias_ := a, url := u } h2
    rw [← h1] at hfind
    exact Storage.GetURL_of_find _ a _ hdrv hfind
  · have hmem : row ∈ st.rows := List.mem_of_find?_eq_some h2
    have hurl : row.url = u := by simpa using List.find?_some h2
    have hfind := find?_alias_of_unique st.rows row huniq hmem
    rw [h3, ← h1] at hfind
    rw [Storage.GetURL_of_find _ a row hdrv hfind, hurl]

theorem C14_saved_alias_resolves_witness :
    ((New (fun _ => none) sqlite (fun _ _ => "wxyz") (.decoded ⟨"https://example.com", ""⟩)
      (Storage.healthy [⟨1, "abcd", "https://go.dev"⟩, ⟨2, "efgh", "https://example.com"⟩])).2.GetURL
        "efgh").1 = .ok "https://example.com" :=
  C14_saved_alias_resolves (fun _ => none) (fun _ _ => "wxyz")
    (Storage.healthy [⟨1, "abcd", "https://go.dev"⟩, ⟨2, "efgh", "https://example.com"⟩])
    "https://example.com" "" "efgh" (by simp [Storage.UniqueAliases, Storage.healthy])
    (by decide) (by decide)

end save

/-! ## Theorems: the first candidate that is free -/

namespace save

/-- If the store answers "exists" for the first `m` candidates and "does not exist" for the
next one, and the loop has more than `m` iterations to run, the loop is left after exactly
`m + 1` queries, one per candidate and in order, with the last candidate as the alias. -/
theorem generateLoop_first_free {σ : Type} (impl : URLSaver σ) (rnd : Nat → Nat → String) :
    ∀ (m n j : Nat) (a : String) (f : Bool) (s : σ) (log : List Call), m < n →
      (∀ i < m, (impl.AliasExists (stateAfter impl rnd i j s) (rnd (j + i) aliasLength)).1 =
        .ok true) →
      (impl.AliasExists (stateAfter impl rnd m j s) (rnd (j + m) aliasLength)).1 = .ok false →
      generateLoop (recording impl) rnd n (j + 1) a f (s, log) =
        .finished (rnd (j + m) aliasLength) false
          (stateAfter impl rnd (m + 1) j s,
            log ++ ((List.range m).map
              (fun i => Call.AliasExists (rnd (j + i) aliasLength) (.ok true)) ++
              [.AliasExists (rnd (j + m) aliasLength) (.ok false)])) := by
  intro m
  induction m with
  | zero =>
    intro n j a f s log hn _ hfree
    obtain ⟨n1, rfl⟩ : ∃ n1, n = n1 + 1 := ⟨n - 1, by omega⟩
    simp only [stateAfter, Nat.add_zero] at hfree
    rcases hq : impl.AliasExists s (rnd j aliasLength) with ⟨r, s1⟩
    rw [hq] at hfree
    simp only at hfree
    subst hfree
    simp [generateLoop, recording_AliasExists, hq, stateAfter]
  | succ m ih =>
    intro n j a f s log hn hbefore hfree
    obtain ⟨n1, rfl⟩ : ∃ n1, n = n1 + 1 := ⟨n - 1, by omega⟩
    have h0 := hbefore 0 (Nat.succ_pos m)
    simp only [stateAfter, Nat.add_zero] at h0
    rcases hq : impl.AliasExists s (rnd j aliasLength) with ⟨r, s1⟩
    rw [hq] at h0
    simp only at h0
    subst h0
    have hstate : ∀ i, stateAfter impl rnd (i + 1) j s = stateAfter impl rnd i (j + 1) s1 := by
      intro i
      simp [stateAfter, hq]
    have hidx : ∀ i, j + (i + 1) = j + 1 + i := by intro i; omega
    have hbefore1 : ∀ i < m,
        (impl.AliasExists (stateAfter impl rnd i (j + 1) s1) (rnd (j + 1 + i) aliasLength)).1 =
          .ok true := by
      intro i hi
      have := hbefore (i + 1) (Nat.succ_lt_succ hi)
      rwa [hstate, hidx i] at this
    have hfree1 :
        (impl.AliasExists (stateAfter impl rnd m (j + 1) s1) (rnd (j + 1 + m) aliasLength)).1 =
          .ok false := by
      rwa [hstate, hidx m] at hfree
    have hrec := ih n1 (j + 1) (rnd j aliasLength) true s1
      (log ++ [.AliasExists (rnd j aliasLength) (.ok true)]) (by omega) hbefore1 hfree1
    simp only [generateLoop, Nat.add_sub_cancel, recording_AliasExists, hq, Bool.not_true,
      Bool.false_eq_true, if_false]
    have hmap : (List.range m).map
          (fun i => Call.AliasExists (rnd (j + 1 + i) aliasLength) (.ok true)) =
        (List.range m).map
          ((fun i => Call.AliasExists (rnd (j + i) aliasLength) (.ok true)) ∘ Nat.succ) := by
      apply List.map_congr_left
      intro k _
      simp only [Function.comp, Nat.succ_eq_add_one, hidx k]
    rw [hrec, hstate (m + 1), hidx m, List.range_succ_eq_map, List.map_cons, List.map_map, hmap]
    simp only [List.append_assoc, List.singleton_append, Nat.add_zero, List.cons_append,
      List.nil_append]

/-- The run of a request without alias whose URL is reported as not stored, when the store
answers "exists" for the first `m` candidates and "does not exist" for the next one: the
handler goes on to its end with that candidate, after `URLExists` and `m + 1` queries. -/
theorem run_first_free {σ : Type} (validate : Request → Option (List String))
    (impl : URLSaver σ) (rnd : Nat → Nat → String) (u : String) (s : σ) (m : Nat)
    (hval : validate ⟨u, ""⟩ = none)
    (hnew : (impl.URLExists s u).1 = .ok false)
    (hm : m < maxAttempts)
    (hbefore : ∀ i < m, answerAt impl rnd (impl.URLExists s u).2 i = .ok true)
    (hfree : answerAt impl rnd (impl.URLExists s u).2 m = .ok false) :
    run validate impl rnd (.decoded ⟨u, ""⟩) s =
      persist (recording impl) u (rnd m aliasLength)
        (stateAfter impl rnd (m + 1) 0 (impl.URLExists s u).2,
          .URLExists u (.ok false) ::
            ((List.range m).map (fun i => Call.AliasExists (rnd i aliasLength) (.ok true)) ++
              [.AliasExists (rnd m aliasLength) (.ok false)])) := by
  rcases hq : impl.URLExists s u with ⟨r, s1⟩
  rw [hq] at hnew hbefore hfree
  simp only at hnew hbefore hfree
  subst hnew
  have hb : ∀ i < m,
      (impl.AliasExists (stateAfter impl rnd i 0 s1) (rnd (0 + i) aliasLength)).1 = .ok true := by
    intro i hi
    rw [Nat.zero_add]
    exact hbefore i hi
  have hf : (impl.AliasExists (stateAfter impl rnd m 0 s1) (rnd (0 + m) aliasLength)).1 =
      .ok false := by
    rw [Nat.zero_add]
    exact hfree
  have hl := generateLoop_first_free impl rnd m maxAttempts 0 "" true s1
    [.URLExists u (.ok false)] hm hb hf
  simp only [Nat.zero_add] at hl
  simp only [run, New, hval, if_true, recording_URLExists, hq, List.nil_append, hl,
    Bool.false_eq_true, if_false, List.singleton_append]

/-- Claim C13. On the path that generates the alias (empty alias, URL reported as not
stored), for every sequence of generated 4-character candidates: if `AliasExists` answers
"exists" without error for the candidates before number `k = m + 1 ≤ 64` and "does not
exist" for candidate `k`, then `AliasExists` is queried exactly for the candidates 1 to
`k`, in order (so no further candidate is generated), candidate `k` passes the validation
and is the alias passed to `SaveURL`, and the answer is not the exhaustion error, also for
`k = 64`: it is `Ok` with candidate `k` when `SaveURL` returns no error. -/
theorem C13_first_free_candidate {σ : Type} (validate : Request → Option (List String))
    (impl : URLSaver σ) (rnd : Nat → Nat → String) (u : String) (s : σ) (m : Nat)
    (hval : validate ⟨u, ""⟩ = none)
    (hnew : (impl.URLExists s u).1 = .ok false)
    (hgen : ∀ i, IsGenerated aliasLength (rnd i aliasLength))
    (hm : m < 64)
    (hbefore : ∀ i < m, answerAt impl rnd (impl.URLExists s u).2 i = .ok true)
    (hfree : answerAt impl rnd (impl.URLExists s u).2 m = .ok false) :
    IsValidAlias (rnd m aliasLength) = true ∧
    (run validate impl rnd (.decoded ⟨u, ""⟩) s).2.2 =
      .URLExists u (.ok false) ::
        ((List.range m).map (fun i => Call.AliasExists (rnd i aliasLength) (.ok true)) ++
          [.AliasExists (rnd m aliasLength) (.ok false),
            .SaveURL u (rnd m aliasLength)
              (impl.SaveURL (stateAfter impl rnd (m + 1) 0 (impl.URLExists s u).2) u
                (rnd m aliasLength)).1]) ∧
    ((run validate impl rnd (.decoded ⟨u, ""⟩) s).2.2.filter Call.isAliasExists).length = m + 1 ∧
    (run validate impl rnd (.decoded ⟨u, ""⟩) s).1 ≠ responseError
      "The number of attempts to create an alias has been exceeded. Try again after a while" ∧
    (∀ id, (impl.SaveURL (stateAfter impl rnd (m + 1) 0 (impl.URLExists s u).2) u
        (rnd m aliasLength)).1 = .ok id →
      (run validate impl rnd (.decoded ⟨u, ""⟩) s).1 = responseOK (rnd m aliasLength)) := by
  have hvalid : IsValidAlias (rnd m aliasLength) = true := by
    rw [IsValidAlias_eq_true_iff]
    obtain ⟨hlen, hall⟩ := hgen m
    refine ⟨?_, hall⟩
    intro hnil
    rw [hnil] at hlen
    exact absurd hlen (by decide)
  have hrun := run_first_free validate impl rnd u s m hval hnew hm hbefore hfree
  rw [persist_recording] at hrun
  simp only [hvalid, Bool.true_eq_false, if_false] at hrun
  refine ⟨hvalid, ?_, ?_, ?_, ?_⟩
  · rw [hrun]
    simp
  · rw [hrun]
    simp [List.filter_cons, Call.isAliasExists, List.filter_map, List.filter_append,
      Function.comp_def]
  · rw [hrun]
    simp only
    unfold persist
    rcases impl.SaveURL (stateAfter impl rnd (m + 1) 0 (impl.URLExists s u).2) u
      (rnd m aliasLength) with ⟨r, s2⟩
    cases r with
    | error e =>
      by_cases he : errorsIs e .ErrURLExists = true <;>
        simp [hvalid, he, responseError, response.Error]
    | ok id => simp [hvalid, responseError, responseOK, response.Error, response.Ok]
  · intro id hid
    rw [hrun]
    simp only
    unfold persist
    rcases hq : impl.SaveURL (stateAfter impl rnd (m + 1) 0 (impl.URLExists s u).2) u
      (rnd m aliasLength) with ⟨r, s2⟩
    rw [hq] at hid
    simp only at hid
    subst hid
    simp [hvalid]

theorem C13_first_free_candidate_witness :
    (∀ i < 63, answerAt sqlite (fun i _ => if i < 63 then "aaaa" else "abcd")
      (sqlite.URLExists (Storage.healthy [⟨1, "aaaa", "https://go.dev"⟩])
        "https://example.com").2 i = .ok true) ∧
    ((run (fun _ => none) sqlite (fun i _ => if i < 63 then "aaaa" else "abcd")
      (.decoded ⟨"https://example.com", ""⟩)
      (Storage.healthy [⟨1, "aaaa", "https://go.dev"⟩])).2.2.filter
        Call.isAliasExists).length = 64 ∧
    (run (fun _ => none) sqlite (fun i _ => if i < 63 then "aaaa" else "abcd")
      (.decoded ⟨"https://example.com", ""⟩)
      (Storage.healthy [⟨1, "aaaa", "https://go.dev"⟩])).1 = responseOK "abcd" :=
  have h := C13_first_free_candidate (fun _ => none) sqlite
    (fun i _ => if i < 63 then "aaaa" else "abcd") "https://example.com"
    (Storage.healthy [⟨1, "aaaa", "https://go.dev"⟩]) 63 rfl (by decide)
    (by
      intro i
      by_cases hi : i < 63
      · simp only [hi, if_true]; exact ⟨by decide, by decide⟩
      · simp only [hi, if_false]; exact ⟨by decide, by decide⟩)
    (by decide) (by decide) (by decide)
  ⟨by decide, h.2.2.1, h.2.2.2.2 2 (by decide)⟩

/-! ## Theorems: only valid aliases reach the store -/

/-- A request either makes no `SaveURL` call or runs the end of the handler after calls
none of which is a `SaveURL`. -/
theorem run_persist_or_not {σ : Type} (validate : Request → Option (List String))
    (impl : URLSaver σ) (rnd : Nat → Nat → String) (body : Body) (s : σ) :
    (∀ c ∈ (run validate impl rnd body s).2.2, c.isSaveURL = false) ∨
    ∃ u a s1 log1, (∀ c ∈ log1, c.isSaveURL = false) ∧
      run validate impl rnd body s = persist (recording impl) u a (s1, log1) := by
  unfold run
  cases body with
  | eof => left; simp [New]
  | malformed => left; simp [New]
  | decoded req =>
    cases hval : validate req with
    | some errs => left; simp [New, hval]
    | none =>
      by_cases hA : req.Alias = ""
      · rcases hq : impl.URLExists s req.URL with ⟨r, s1⟩
        cases r with
        | error e =>
          left
          simp [New, hval, hA, recording_URLExists, hq, Call.isSaveURL]
        | ok found =>
          cases found with
          | true =>
            left
            rcases hg : impl.GetAliasByURL s1 req.URL with ⟨r2, s2⟩
            cases r2 <;>
              simp [New, hval, hA, recording_URLExists, recording_GetAliasByURL, hq, hg,
                Call.isSaveURL]
          | false =>
            obtain ⟨ext, h1, h2⟩ := generateLoop_recording_log impl rnd maxAttempts 1 "" true s1
              [.URLExists req.URL (.ok false)]
            have hlog : ∀ c ∈ [Call.URLExists req.URL (.ok false)] ++ ext,
                c.isSaveURL = false := by
              intro c hc
              rcases List.mem_append.mp hc with hc | hc
              · rw [List.mem_singleton.mp hc]; rfl
              · exact Call.not_isSaveURL_of_isAliasExists (h2 c hc)
            simp only [New, hval, hA, recording_URLExists, hq, if_true, List.nil_append]
            cases hl : generateLoop (recording impl) rnd maxAttempts 1 "" true
                (s1, [.URLExists req.URL (.ok false)]) with
            | failed st =>
              left
              rw [hl] at h1
              simp only [LoopExit.state] at h1 ⊢
              rw [h1]
              exact hlog
            | finished a f st =>
              rw [hl] at h1
              simp only [LoopExit.state] at h1 ⊢
              cases f with
              | true =>
                left
                simp only [if_true]
                rw [h1]
                exact hlog
              | false =>
                right
                simp only [Bool.false_eq_true, if_false]
                obtain ⟨st1, st2⟩ := st
                simp only at h1
                subst h1
                exact ⟨req.URL, a, st1, _, hlog, rfl⟩
      · right
        exact ⟨req.URL, req.Alias, s, [], by simp, by simp [New, hval, hA]⟩

/-- Every `SaveURL` call on record was made with an alias that satisfies `IsValidAlias`. -/
theorem run_SaveURL_valid {σ : Type} (validate : Request → Option (List String))
    (impl : URLSaver σ) (rnd : Nat → Nat → String) (body : Body) (s : σ)
    (u a : String) (r : Except Error Int)
    (hc : Call.SaveURL u a r ∈ (run validate impl rnd body s).2.2) :
    IsValidAlias a = true := by
  rcases run_persist_or_not validate impl rnd body s with h | ⟨u1, a1, s1, log1, hlog, hrun⟩
  · have := h _ hc
    simp [Call.isSaveURL] at this
  · rw [hrun, persist_recording] at hc
    cases hv : IsValidAlias a1
    · simp only [hv, if_true] at hc
      have := hlog _ hc
      simp [Call.isSaveURL] at this
    · simp only [hv, Bool.true_eq_false, if_false] at hc
      rcases List.mem_append.mp hc with hc | hc
      · have := hlog _ hc
        simp [Call.isSaveURL] at this
      · simp only [List.mem_singleton, Call.SaveURL.injEq] at hc
        rw [hc.2.1]
        exact hv

/-- The save handler on the SQLite storage keeps every stored alias valid. -/
theorem New_sqlite_valid_aliases (validate : Request → Option (List String))
    (rnd : Nat → Nat → String) (body : Body) (st : Storage)
    (hvalid : ∀ r ∈ st.rows, IsValidAlias r.alias_ = true) :
    ∀ r ∈ (New validate sqlite rnd body st).2.rows, IsValidAlias r.alias_ = true := by
  rcases New_status_cases validate sqlite rnd body st with herr | ⟨a, hok⟩
  · rcases New_sqlite_rows validate rnd body st with h2 | ⟨h2, _⟩
    · rw [h2]; exact hvalid
    · rw [herr] at h2
      exact absurd h2 (by decide)
  · obtain ⟨req, _, h2⟩ := New_sqlite_ok validate rnd body st a hok
    rcases h2 with ⟨id, h2, _, h3⟩ | ⟨h2, _⟩
    · rw [h2]
      intro r hr
      rcases List.mem_append.mp hr with hr | hr
      · exact hvalid r hr
      · rw [List.mem_singleton.mp hr]
        exact h3
    · rw [h2]; exact hvalid

/-- Claim C15. Whatever strings the random generator returns, every alias the save handler
passes to `SaveURL` satisfies `IsValidAlias`; hence, on the SQLite storage, if every stored
alias is valid before a request, every stored alias is valid after it; and when the
candidate that the store reports as free fails the validator, the answer is the error
"url alias not valid" and `SaveURL` is not called. -/
theorem C15_only_valid_aliases_saved :
    (∀ (σ : Type) (validate : Request → Option (List String)) (impl : URLSaver σ)
        (rnd : Nat → Nat → String) (body : Body) (s : σ) (u a : String) (r : Except Error Int),
      Call.SaveURL u a r ∈ (run validate impl rnd body s).2.2 → IsValidAlias a = true) ∧
    (∀ (validate : Request → Option (List String)) (rnd : Nat → Nat → String) (body : Body)
        (st : Storage),
      (∀ r ∈ st.rows, IsValidAlias r.alias_ = true) →
      ∀ r ∈ (New validate sqlite rnd body st).2.rows, IsValidAlias r.alias_ = true) ∧
    (∀ (σ : Type) (validate : Request → Option (List String)) (impl : URLSaver σ)
        (rnd : Nat → Nat → String) (u : String) (s : σ) (m : Nat),
      validate ⟨u, ""⟩ = none → (impl.URLExists s u).1 = .ok false → m < 64 →
      (∀ i < m, answerAt impl rnd (impl.URLExists s u).2 i = .ok true) →
      answerAt impl rnd (impl.URLExists s u).2 m = .ok false →
      IsValidAlias (rnd m aliasLength) = false →
      (run validate impl rnd (.decoded ⟨u, ""⟩) s).1 = responseError "url alias not valid" ∧
      ∀ c ∈ (run validate impl rnd (.decoded ⟨u, ""⟩) s).2.2, c.isSaveURL = false) := by
  refine ⟨?_, ?_, ?_⟩
  · intro σ validate impl rnd body s u a r hc
    exact run_SaveURL_valid validate impl rnd body s u a r hc
  · intro validate rnd body st hvalid
    exact New_sqlite_valid_aliases validate rnd body st hvalid
  · intro σ validate impl rnd u s m hval hnew hm hbefore hfree hbad
    have hrun := run_first_free validate impl rnd u s m hval hnew hm hbefore hfree
    rw [persist_recording] at hrun
    simp only [hbad, if_true] at hrun
    rw [hrun]
    refine ⟨rfl, ?_⟩
    intro c hc
    rcases List.mem_cons.mp hc with rfl | hc
    · rfl
    · rcases List.mem_append.mp hc with hc | hc
      · obtain ⟨k, _, rfl⟩ := List.mem_map.mp hc
        rfl
      · rw [List.mem_singleton.mp hc]
        rfl

theorem C15_only_valid_aliases_saved_witness :
    (∀ r ∈ (New (fun _ => none) sqlite (fun _ _ => "ab!d")
      (.decoded ⟨"https://example.com", ""⟩)
      (Storage.healthy [⟨1, "abcd", "https://go.dev"⟩])).2.rows, IsValidAlias r.alias_ = true) ∧
    (run (fun _ => none) sqlite (fun _ _ => "ab!d") (.decoded ⟨"https://example.com", ""⟩)
      (Storage.healthy [⟨1, "abcd", "https://go.dev"⟩])).1 =
      responseError "url alias not valid" ∧
    ∀ c ∈ (run (fun _ => none) sqlite (fun _ _ => "ab!d")
      (.decoded ⟨"https://example.com", ""⟩)
      (Storage.healthy [⟨1, "abcd", "https://go.dev"⟩])).2.2, c.isSaveURL = false :=
  ⟨C15_only_valid_aliases_saved.2.1 (fun _ => none) (fun _ _ => "ab!d")
      (.decoded ⟨"https://example.com", ""⟩) (Storage.healthy [⟨1, "abcd", "https://go.dev"⟩])
      (by decide),
    C15_only_valid_aliases_saved.2.2 Storage (fun _ => none) sqlite (fun _ _ => "ab!d")
      "https://example.com" (Storage.healthy [⟨1, "abcd", "https://go.dev"⟩]) 0 rfl (by decide)
      (by decide) (by decide) (by decide) (by decide)⟩

end save

end UrlShortener
